import Mathlib

/-!
Verification of the entity reconciliation and synchronization engine of the
MusicBrainz2Notion repository.

The development shallowly embeds the Python sources:

* `src/musicbrainz2notion/database_entities.py` — tag selection
  (`MusicBrainzEntity._select_tags`), the entity dataclasses and their
  `to_page_properties` builders, `update_notion_page` and
  `_add_entity_type_missing_related`;
* `src/musicbrainz2notion/musicbrainz_data_retrieval.py` —
  `extract_recording_mbids_and_track_number`;
* `src/musicbrainz2notion/database_utils.py` —
  `move_to_trash_outdated_entity_pages`.

Python machine-level details are modelled as follows: Python `int` is `Int`;
`int(s)` on a string is `pyToInt` (`none` models the raised `ValueError`);
Python dicts keyed by MBID are association lists with Python's in-place
update semantics (`mapInsert`); fallible code returns `Option` where `none`
models an uncaught exception.  The external collaborators (the MusicBrainz
client and the Notion store) are modelled operationally: the Notion store is
a list of pages, and every request issued by the embedded code is recorded
in a trace so that call-counting claims can be stated.
-/

namespace MB2N

/-- MusicBrainz identifier (opaque string). -/
abbrev MBID := String

/-- Notion page identifier.  Modelled as a natural number allocated by the
store. -/
abbrev PageId := Nat

/-- Decimal digit sequence to value: `none` unless the character list is a
nonempty run of digits. -/
def digitsToNat? (ds : List Char) : Option Nat :=
  if ds ≠ [] ∧ ds.all (·.isDigit) then
    some (ds.foldl (fun acc c => 10 * acc + (c.toNat - 48)) 0)
  else
    none

/-- Python `int(s)` on a string: optional sign and decimal digits, with
surrounding whitespace tolerated; any other shape raises `ValueError`,
modelled as `none`.  (Python also accepts digit-group underscores, which
never occur in the data handled here.) -/
def pyToInt (s : String) : Option Int :=
  let cs :=
    ((s.data.dropWhile (·.isWhitespace)).reverse.dropWhile
      (·.isWhitespace)).reverse
  match cs with
  | '+' :: ds => (digitsToNat? ds).map Int.ofNat
  | '-' :: ds => (digitsToNat? ds).map (fun n => -(n : Int))
  | ds => (digitsToNat? ds).map Int.ofNat

example : pyToInt "2001" = some 2001 := by decide
example : pyToInt "-3" = some (-3) := by decide
example : pyToInt " 42 " = some 42 := by decide
example : pyToInt "" = none := by decide
example : pyToInt "x" = none := by decide
example : pyToInt "4.35" = none := by decide
example : pyToInt "????" = none := by decide

/-- Python `x or default` for an optional string field: `None` and the empty
string are falsy and select the default. -/
def pyOrDefault (v : Option String) (dflt : String) : String :=
  match v with
  | none => dflt
  | some s => if s = "" then dflt else s

/-! ### Python dict with string keys (insertion-ordered association list)

`mapInsert` follows Python `d[k] = v`: an existing key is overwritten in
place, a new key is appended at the end. -/

/-- Lookup in the MBID → page-id mapping (`mbid_to_page_id_map[mbid]` /
`.get(mbid)`). -/
def mapLookup (m : List (MBID × PageId)) (k : MBID) : Option PageId :=
  match m with
  | [] => none
  | (k', v') :: rest => if k' = k then some v' else mapLookup rest k

/-- Python `mbid_to_page_id_map[mbid] = page_id`. -/
def mapInsert (m : List (MBID × PageId)) (k : MBID) (v : PageId) :
    List (MBID × PageId) :=
  match m with
  | [] => [(k, v)]
  | (k', v') :: rest =>
    if k' = k then (k, v) :: rest else (k', v') :: mapInsert rest k v

theorem mapLookup_mapInsert_self (m : List (MBID × PageId)) (k : MBID)
    (v : PageId) : mapLookup (mapInsert m k v) k = some v := by
  induction m with
  | nil => simp [mapInsert, mapLookup]
  | cons hd tl ih =>
    by_cases h : hd.1 = k <;> simp [mapInsert, mapLookup, h, ih]

theorem mapLookup_mapInsert_ne (m : List (MBID × PageId)) {k k' : MBID}
    (v : PageId) (h : k ≠ k') :
    mapLookup (mapInsert m k v) k' = mapLookup m k' := by
  induction m with
  | nil => simp [mapInsert, mapLookup, h]
  | cons hd tl ih =>
    by_cases hh : hd.1 = k
    · subst hh
      simp [mapInsert, mapLookup, h, Ne.symm h]
    · by_cases hk' : hd.1 = k' <;>
        simp [mapInsert, mapLookup, hh, hk', Ne.symm h, ih]

theorem mapLookup_mapInsert_isSome (m : List (MBID × PageId)) (k k' : MBID)
    (v : PageId) (h : (mapLookup m k').isSome) :
    (mapLookup (mapInsert m k v) k').isSome := by
  by_cases hk : k = k'
  · subst hk; simp [mapLookup_mapInsert_self]
  · rwa [mapLookup_mapInsert_ne m v hk]

/-! ## Tag selection — `MusicBrainzEntity._select_tags`

```python
sorted_tags = sorted(tag_list, key=lambda tag: int(tag["count"]), reverse=True)
pruned_tags = []
current_vote_count = None
for tag_info in sorted_tags:
    tag_count = int(tag_info["count"])
    if len(pruned_tags) < min_nb_tags or tag_count == current_vote_count:
        pruned_tags.append(tag_info["name"])
        current_vote_count = tag_count
    else:
        break
return pruned_tags
```

A MusicBrainz tag dictionary carries a name and a vote count; the count
arrives as a decimal string and is read through `int(...)`, so it is
modelled directly as an `Int`. -/

/-- One entry of a MusicBrainz `tag-list`. -/
structure TagDict where
  name : String
  count : Int
deriving DecidableEq, Repr

/-- The comparison used by `sorted(tag_list, key=lambda tag: int(tag["count"]),
reverse=True)`: `a` may come before `b` iff `a`'s count is ≥ `b`'s. -/
def tagGE (a b : TagDict) : Prop := b.count ≤ a.count

instance : DecidableRel tagGE := fun _ _ => inferInstanceAs (Decidable (_ ≤ _))

instance : IsTotal TagDict tagGE := ⟨fun a b => le_total b.count a.count⟩

instance : IsTrans TagDict tagGE := ⟨fun _ _ _ h1 h2 => le_trans h2 h1⟩

/-- `sorted(tag_list, key=..., reverse=True)`: stable sort by vote count,
descending.  Python's `sorted` is a stable sort; `List.insertionSort` is also
stable, and two stable sorts under the same total preorder produce the same
list, so this is a faithful model. -/
def sortTagsDesc (tagList : List TagDict) : List TagDict :=
  tagList.insertionSort tagGE

/-- The `for` loop of `_select_tags`: `nbPruned` tracks `len(pruned_tags)`
and `currentVoteCount` the `current_vote_count` variable; the `break`
discards the rest of the list. -/
def selectTagsLoop (minNbTags : Int) (nbPruned : Nat)
    (currentVoteCount : Option Int) : List TagDict → List String
  | [] => []
  | tagInfo :: rest =>
    if (nbPruned : Int) < minNbTags ∨ currentVoteCount = some tagInfo.count then
      tagInfo.name ::
        selectTagsLoop minNbTags (nbPruned + 1) (some tagInfo.count) rest
    else
      []

/-- `MusicBrainzEntity._select_tags(tag_list, min_nb_tags)`. -/
def selectTags (tagList : List TagDict) (minNbTags : Int) : List String :=
  selectTagsLoop minNbTags 0 none (sortTagsDesc tagList)

example :
    selectTags [⟨"A", 5⟩, ⟨"B", 5⟩, ⟨"C", 3⟩, ⟨"D", 1⟩] 1 = ["A", "B"] := by
  decide

example :
    selectTags [⟨"A", 5⟩, ⟨"B", 5⟩, ⟨"C", 3⟩, ⟨"D", 1⟩] 3 = ["A", "B", "C"] := by
  decide

example : selectTags [⟨"C", 3⟩, ⟨"A", 5⟩, ⟨"D", 1⟩, ⟨"B", 5⟩] 1 = ["A", "B"] := by
  decide

example : selectTags [⟨"A", 5⟩] 0 = [] := by decide

/-! ### Properties of `_select_tags` -/

theorem selectTagsLoop_eq_take_map (m : Int) :
    ∀ (l : List TagDict) (k : Nat) (cur : Option Int),
      selectTagsLoop m k cur l =
        (l.take (selectTagsLoop m k cur l).length).map (·.name)
  | [], _, _ => rfl
  | t :: ts, k, cur => by
    by_cases h : (k : Int) < m ∨ cur = some t.count
    · simp only [selectTagsLoop, if_pos h, List.length_cons,
        List.take_succ_cons, List.map_cons]
      exact congrArg _ (selectTagsLoop_eq_take_map m ts (k + 1) (some t.count))
    · simp [selectTagsLoop, if_neg h]

theorem selectTagsLoop_length (m : Int) :
    ∀ (l : List TagDict) (k : Nat) (cur : Option Int),
      min (m - k) (l.length : Int) ≤ ((selectTagsLoop m k cur l).length : Int)
  | [], k, _ => by simp
  | t :: ts, k, cur => by
    by_cases h : (k : Int) < m ∨ cur = some t.count
    · have ih := selectTagsLoop_length m ts (k + 1) (some t.count)
      simp only [selectTagsLoop, if_pos h, List.length_cons]
      push_cast at ih ⊢
      omega
    · have hk : ¬((k : Int) < m) := fun hh => h (Or.inl hh)
      simp only [selectTagsLoop, if_neg h, List.length_nil, List.length_cons]
      push_cast
      omega

/-- The vote count of the last entry of `taken`, defaulting to `c` when
`taken` is empty. -/
def lastCountAux (c : Int) (taken : List TagDict) : Int :=
  (taken.getLast?).elim c (·.count)

@[simp] theorem lastCountAux_nil (c : Int) : lastCountAux c [] = c := rfl

theorem lastCountAux_cons (c : Int) (t : TagDict) (xs : List TagDict) :
    lastCountAux c (t :: xs) = lastCountAux t.count xs := by
  cases xs with
  | nil => rfl
  | cons x xs =>
    cases hh : (x :: xs).getLast? with
    | none => exact absurd hh (by simp)
    | some a => simp [lastCountAux, List.getLast?_cons_cons, hh]

theorem lastCountAux_eq_of_getLast? {xs : List TagDict} {a : TagDict}
    (c : Int) (h : xs.getLast? = some a) : lastCountAux c xs = a.count := by
  simp [lastCountAux, h]

/-- Everything the loop leaves unselected has a vote count strictly below the
count of the last selected entry (assuming the list is sorted descending and
bounded by the running vote count `c`). -/
theorem selectTagsLoop_cutoff (m : Int) :
    ∀ (l : List TagDict) (k : Nat) (c : Int),
      l.Pairwise tagGE →
      (∀ x ∈ l, x.count ≤ c) →
      ∀ b ∈ l.drop (selectTagsLoop m k (some c) l).length,
        b.count < lastCountAux c (l.take (selectTagsLoop m k (some c) l).length)
  | [], _, _, _, _ => by simp
  | t :: ts, k, c, hsort, hbound => by
    by_cases h : (k : Int) < m ∨ (some c : Option Int) = some t.count
    · simp only [selectTagsLoop, if_pos h, List.length_cons,
        List.take_succ_cons, List.drop_succ_cons, lastCountAux_cons]
      exact selectTagsLoop_cutoff m ts (k + 1) t.count
        (List.pairwise_cons.mp hsort).2
        (fun x hx => (List.pairwise_cons.mp hsort).1 x hx)
    · simp only [selectTagsLoop, if_neg h, List.length_nil, List.drop_zero,
        List.take_zero, lastCountAux_nil]
      intro b hb
      have htc : t.count ≠ c := fun hc => h (Or.inr (by rw [hc]))
      have htlt : t.count < c := lt_of_le_of_ne (hbound t (by simp)) htc
      rcases List.mem_cons.mp hb with rfl | hb
      · exact htlt
      · exact lt_of_le_of_lt ((List.pairwise_cons.mp hsort).1 b hb) htlt

/-- Claim C1.  For every tag list and every `min_tags`, `_select_tags`
returns a selection that (i) is the name sequence of an initial segment of
the tag list sorted by vote count descending — in particular the selected
tags come in vote-count-descending order; (ii) has size at least
`min(min_tags, len(tag_list))`; (iii) dominates: every selected entry's vote
count is ≥ every unselected entry's vote count; (iv) is tie-closed: every
unselected entry's vote count is strictly below the vote count of the last
selected entry, so that nothing tied with it is cut; and (v) is empty when
the input is empty, regardless of `min_tags`. -/
theorem selectTags_spec (tagList : List TagDict) (minNbTags : Int) :
    selectTags tagList minNbTags =
      ((sortTagsDesc tagList).take
        (selectTags tagList minNbTags).length).map (·.name) ∧
    (sortTagsDesc tagList).Pairwise tagGE ∧
    min minNbTags (tagList.length : Int) ≤
      ((selectTags tagList minNbTags).length : Int) ∧
    (∀ a ∈ (sortTagsDesc tagList).take (selectTags tagList minNbTags).length,
      ∀ b ∈ (sortTagsDesc tagList).drop (selectTags tagList minNbTags).length,
        b.count ≤ a.count) ∧
    (∀ b ∈ (sortTagsDesc tagList).drop (selectTags tagList minNbTags).length,
      ∀ a, ((sortTagsDesc tagList).take
          (selectTags tagList minNbTags).length).getLast? = some a →
        b.count < a.count) ∧
    (tagList = [] → selectTags tagList minNbTags = []) := by
  have hsorted : (sortTagsDesc tagList).Pairwise tagGE :=
    List.sorted_insertionSort tagGE tagList
  have hlen : (sortTagsDesc tagList).length = tagList.length :=
    List.length_insertionSort tagGE tagList
  refine ⟨selectTagsLoop_eq_take_map minNbTags (sortTagsDesc tagList) 0 none,
    hsorted, ?_, ?_, ?_, ?_⟩
  · have := selectTagsLoop_length minNbTags (sortTagsDesc tagList) 0 none
    rw [hlen] at this
    simpa [selectTags] using this
  · intro a ha b hb
    exact hsorted.rel_of_mem_take_of_mem_drop ha hb
  · show ∀ b ∈ (sortTagsDesc tagList).drop
        (selectTagsLoop minNbTags 0 none (sortTagsDesc tagList)).length,
      ∀ a, ((sortTagsDesc tagList).take
          (selectTagsLoop minNbTags 0 none (sortTagsDesc tagList)).length).getLast?
            = some a →
        b.count < a.count
    cases hs : sortTagsDesc tagList with
    | nil => simp
    | cons t ts =>
      have hsorted' : (t :: ts).Pairwise tagGE := hs ▸ hsorted
      by_cases h0 : (0 : Int) < minNbTags
      · have hcond : ((0 : Nat) : Int) < minNbTags ∨
            (none : Option Int) = some t.count := Or.inl (by exact_mod_cast h0)
        simp only [selectTagsLoop, if_pos hcond, List.length_cons,
          List.take_succ_cons, List.drop_succ_cons]
        intro b hb a hget
        have hcut := selectTagsLoop_cutoff minNbTags ts (0 + 1) t.count
          (List.pairwise_cons.mp hsorted').2
          (fun x hx => (List.pairwise_cons.mp hsorted').1 x hx) b hb
        have ha : lastCountAux t.count
            (ts.take (selectTagsLoop minNbTags (0 + 1) (some t.count) ts).length)
              = a.count := by
          rw [← lastCountAux_cons t.count t]
          exact lastCountAux_eq_of_getLast? _ hget
        rwa [ha] at hcut
      · have hcond : ¬(((0 : Nat) : Int) < minNbTags ∨
            (none : Option Int) = some t.count) := by
          push_neg
          exact ⟨by exact_mod_cast Int.not_lt.mp h0, by simp⟩
        simp [selectTagsLoop, if_neg hcond, h0]
  · intro hnil
    simp [selectTags, sortTagsDesc, hnil, selectTagsLoop]

/-- Witness for claim C1, instantiating it on the spec's worked example
`[(A,5), (B,5), (C,3), (D,1)]` with `min_tags = 1`. -/
theorem selectTags_spec_witness :
    min (1 : Int)
        (([⟨"A", 5⟩, ⟨"B", 5⟩, ⟨"C", 3⟩, ⟨"D", 1⟩] : List TagDict).length : Int) ≤
      ((selectTags [⟨"A", 5⟩, ⟨"B", 5⟩, ⟨"C", 3⟩, ⟨"D", 1⟩] 1).length : Int) ∧
    selectTags [⟨"A", 5⟩, ⟨"B", 5⟩, ⟨"C", 3⟩, ⟨"D", 1⟩] 1 = ["A", "B"] :=
  ⟨(selectTags_spec [⟨"A", 5⟩, ⟨"B", 5⟩, ⟨"C", 3⟩, ⟨"D", 1⟩] 1).2.2.1,
    by decide⟩

/-! ## Track number formatting — `extract_recording_mbids_and_track_number`

```python
medium_list = release_data["medium-list"]
medium_padding = len(str(len(medium_list)))
for medium in medium_list:
    medium_position = int(medium["position"])
    track_list = medium["track-list"]
    track_padding = len(str(len(track_list)))
    for track in medium["track-list"]:
        track_position = int(track["position"])
        recording_mbid = track["recording"]["id"]
        if len(medium_list) == 1:
            track_number = f"\x7btrack_position:0\x7btrack_padding\x7d\x7d"
        else:
            track_number = f"\x7bmedium_position:0\x7bmedium_padding\x7d\x7d." \
                f"\x7btrack_position:0\x7btrack_padding\x7d\x7d"
        yield recording_mbid, track_number
```
-/

/-- Fuel-driven digit counter; `numDigitsAux fuel n` is the number of decimal
digits of `n` whenever `n ≤ fuel`. -/
def numDigitsAux : Nat → Nat → Nat
  | 0, _ => 1
  | fuel + 1, n => if n < 10 then 1 else numDigitsAux fuel (n / 10) + 1

/-- `len(str(n))` for a natural number `n`: the number of decimal digits. -/
def numDigits (n : Nat) : Nat := numDigitsAux n n

example : numDigits 0 = 1 := by decide
example : numDigits 9 = 1 := by decide
example : numDigits 10 = 2 := by decide
example : numDigits 11 = 2 := by decide
example : numDigits 100 = 3 := by decide

theorem numDigitsAux_pos (fuel n : Nat) : 1 ≤ numDigitsAux fuel n := by
  cases fuel with
  | zero => exact le_refl 1
  | succ fuel => by_cases h : n < 10 <;> simp [numDigitsAux, h]

theorem numDigits_pos (n : Nat) : 1 ≤ numDigits n := numDigitsAux_pos n n

theorem lt_pow_numDigitsAux : ∀ (fuel n : Nat), n ≤ fuel → n < 10 ^ numDigitsAux fuel n
  | 0, n, h => by
    have : n = 0 := Nat.le_zero.mp h
    simp [this, numDigitsAux]
  | fuel + 1, n, h => by
    by_cases h10 : n < 10
    · simp only [numDigitsAux, if_pos h10, pow_one]
      exact h10
    · have hdiv : n / 10 ≤ fuel := by
        have h1 : n / 10 < n := Nat.div_lt_self (by omega) (by omega)
        omega
      have ih := lt_pow_numDigitsAux fuel (n / 10) hdiv
      have hmod := Nat.div_add_mod n 10
      have hmodlt : n % 10 < 10 := Nat.mod_lt n (by omega)
      simp only [numDigitsAux, if_neg h10, pow_succ]
      omega

/-- Every natural number is below `10 ^ numDigits n`. -/
theorem lt_pow_numDigits (n : Nat) : n < 10 ^ numDigits n :=
  lt_pow_numDigitsAux n n (le_refl n)

theorem numDigitsAux_le : ∀ (fuel n w : Nat), n ≤ fuel → n < 10 ^ w → 1 ≤ w →
    numDigitsAux fuel n ≤ w
  | 0, _, _, _, _, hw => by
    simp only [numDigitsAux]
    exact hw
  | fuel + 1, n, w, h, hpow, hw => by
    by_cases h10 : n < 10
    · simp only [numDigitsAux, if_pos h10]
      exact hw
    · have hw2 : 2 ≤ w := by
        rcases Nat.lt_or_ge w 2 with hlt | hge
        · interval_cases w
          simp only [pow_one] at hpow
          omega
        · exact hge
      have hdiv : n / 10 ≤ fuel := by
        have h1 : n / 10 < n := Nat.div_lt_self (by omega) (by omega)
        omega
      have hdivpow : n / 10 < 10 ^ (w - 1) := by
        have : (10 : Nat) ^ w = 10 ^ (w - 1) * 10 := by
          rw [← pow_succ]
          congr 1
          omega
        rw [Nat.div_lt_iff_lt_mul (by omega)]
        omega
      have ih := numDigitsAux_le fuel (n / 10) (w - 1) hdiv hdivpow (by omega)
      simp only [numDigitsAux, if_neg h10]
      omega

/-- If `n < 10 ^ w` (with `w ≥ 1`) then `n` has at most `w` digits. -/
theorem numDigits_le {n w : Nat} (hpow : n < 10 ^ w) (hw : 1 ≤ w) :
    numDigits n ≤ w :=
  numDigitsAux_le n n w (le_refl n) hpow hw

/-- The `w`-position most-significant-first decimal digit expansion of `n`:
the digit list of Python's zero-padded `f"\x7bn:0\x7bw\x7d\x7d"` when
`n < 10 ^ w`. -/
def padDigits : Nat → Nat → List Nat
  | 0, _ => []
  | w + 1, n => n / 10 ^ w :: padDigits w (n % 10 ^ w)

@[simp] theorem padDigits_length : ∀ (w n : Nat), (padDigits w n).length = w
  | 0, _ => rfl
  | w + 1, n => by simp [padDigits, padDigits_length w]

/-- Python `f"\x7bn:0\x7bw\x7d\x7d"`: the decimal representation of `n`,
left-padded with zeros to width `w` (never truncated: a number with more
than `w` digits keeps all its digits). -/
def pyFormatPad (w : Nat) (n : Nat) : String :=
  ⟨(padDigits (max w (numDigits n)) n).map Nat.digitChar⟩

example : pyFormatPad 2 2 = "02" := by decide
example : pyFormatPad 2 11 = "11" := by decide
example : pyFormatPad 1 7 = "7" := by decide
example : pyFormatPad 1 0 = "0" := by decide
example : pyFormatPad 3 45 = "045" := by decide
example : pyFormatPad 1 123 = "123" := by decide

theorem pyFormatPad_data {w n : Nat} (hpow : n < 10 ^ w) (hw : 1 ≤ w) :
    (pyFormatPad w n).data = (padDigits w n).map Nat.digitChar := by
  have : max w (numDigits n) = w := Nat.max_eq_left (numDigits_le hpow hw)
  rw [pyFormatPad, this]

/-! ### Lexicographic facts about zero-padded decimals -/

theorem digitChar_lt_digitChar :
    ∀ d1 < 10, ∀ d2 < 10, d1 < d2 → Nat.digitChar d1 < Nat.digitChar d2 := by
  decide

/-- On equal-width zero-padded expansions, numeric order and lexicographic
order of the digit characters agree. -/
theorem padDigits_map_lex :
    ∀ (w : Nat) {m n : Nat}, m < 10 ^ w → n < 10 ^ w → m < n →
      List.Lex (· < ·) ((padDigits w m).map Nat.digitChar)
        ((padDigits w n).map Nat.digitChar)
  | 0, m, n, hm, hn, h => by
    simp only [pow_zero, Nat.lt_one_iff] at hm hn
    omega
  | w + 1, m, n, hm, hn, h => by
    simp only [padDigits, List.map_cons]
    have hpow : (10 : Nat) ^ (w + 1) = 10 ^ w * 10 := pow_succ 10 w
    have hmd : m / 10 ^ w < 10 := by
      rw [Nat.div_lt_iff_lt_mul (Nat.pos_pow_of_pos w (by omega))]
      omega
    have hnd : n / 10 ^ w < 10 := by
      rw [Nat.div_lt_iff_lt_mul (Nat.pos_pow_of_pos w (by omega))]
      omega
    rcases lt_trichotomy (m / 10 ^ w) (n / 10 ^ w) with hlt | heq | hgt
    · exact List.Lex.rel (digitChar_lt_digitChar _ hmd _ hnd hlt)
    · have hmm := Nat.div_add_mod m (10 ^ w)
      have hnm := Nat.div_add_mod n (10 ^ w)
      have hmodm : m % 10 ^ w < 10 ^ w :=
        Nat.mod_lt m (Nat.pos_pow_of_pos w (by omega))
      have hmodn : n % 10 ^ w < 10 ^ w :=
        Nat.mod_lt n (Nat.pos_pow_of_pos w (by omega))
      have hmodlt : m % 10 ^ w < n % 10 ^ w := by
        rw [heq] at hmm
        omega
      rw [heq]
      exact List.Lex.cons (padDigits_map_lex w hmodm hmodn hmodlt)
    · have hle : m / 10 ^ w ≤ n / 10 ^ w := Nat.div_le_div_right h.le
      omega

/-- A strict lexicographic comparison of equal-length lists survives
appending arbitrary suffixes. -/
theorem lex_append_of_length_eq {α : Type} {r : α → α → Prop} :
    ∀ {xs ys : List α}, List.Lex r xs ys → xs.length = ys.length →
      ∀ (as bs : List α), List.Lex r (xs ++ as) (ys ++ bs)
  | _, _, .nil, hlen => by simp at hlen
  | _, _, .cons h, hlen => fun as bs =>
    List.Lex.cons (lex_append_of_length_eq h (by simpa using hlen) as bs)
  | _, _, .rel hab, _ => fun _ _ => List.Lex.rel hab

/-- A strict lexicographic comparison survives prepending a common
suffix-independent common part. -/
theorem lex_append_left {α : Type} {r : α → α → Prop} {as bs : List α}
    (h : List.Lex r as bs) :
    ∀ p : List α, List.Lex r (p ++ as) (p ++ bs)
  | [] => h
  | _ :: p => List.Lex.cons (lex_append_left h p)

/-- Bridge from a character-level lexicographic comparison to `String`'s
`<` (which Python string comparison also implements). -/
theorem string_lt_of_data_lex {s t : String}
    (h : List.Lex (· < ·) s.data t.data) : s < t := by
  rw [String.lt_iff_toList_lt]
  exact h

/-! ### The release model and the extraction generator -/

/-- One entry of a medium's `track-list`: its `position` and the id of the
recording it links to (`track["recording"]["id"]`). -/
structure MBTrack where
  position : Nat
  recordingId : MBID
deriving DecidableEq, Repr

/-- One entry of a release's `medium-list`: its `position` and its
`track-list`. -/
structure MBMedium where
  position : Nat
  trackList : List MBTrack
deriving DecidableEq, Repr

/-- `medium_padding = len(str(len(medium_list)))`. -/
def mediumPadding (mediumList : List MBMedium) : Nat :=
  numDigits mediumList.length

/-- `track_padding = len(str(len(track_list)))`, per medium. -/
def trackPadding (medium : MBMedium) : Nat :=
  numDigits medium.trackList.length

/-- The `track_number` computed for one track of
`extract_recording_mbids_and_track_number`. -/
def formatTrackNumber (mediumList : List MBMedium) (medium : MBMedium)
    (track : MBTrack) : String :=
  if mediumList.length = 1 then
    pyFormatPad (trackPadding medium) track.position
  else
    pyFormatPad (mediumPadding mediumList) medium.position ++ "." ++
      pyFormatPad (trackPadding medium) track.position

/-- `extract_recording_mbids_and_track_number(release_data)`, as the list of
pairs the generator yields (outer loop over media, inner loop over
tracks). -/
def extractRecordingMbidsAndTrackNumber (mediumList : List MBMedium) :
    List (MBID × String) :=
  (mediumList.map fun medium =>
    medium.trackList.map fun track =>
      (track.recordingId, formatTrackNumber mediumList medium track)).flatten

/-- MusicBrainz medium/track positions are 1-based consecutive: the `i`-th
medium has position `i+1` and the `j`-th track of each medium has position
`j+1`. -/
def canonicalPositions (mediumList : List MBMedium) : Prop :=
  (∀ i (h : i < mediumList.length), (mediumList[i]).position = i + 1) ∧
  ∀ medium ∈ mediumList, ∀ j (h : j < medium.trackList.length),
    (medium.trackList[j]).position = j + 1

example :
    formatTrackNumber
      [⟨1, [⟨1, "a"⟩, ⟨2, "b"⟩]⟩, ⟨2, [⟨1, "c"⟩]⟩]
      ⟨1, [⟨1, "a"⟩, ⟨2, "b"⟩]⟩ ⟨2, "b"⟩ = "1.2" := by decide

example :
    formatTrackNumber [⟨1, [⟨1, "a"⟩, ⟨2, "b"⟩]⟩] ⟨1, [⟨1, "a"⟩, ⟨2, "b"⟩]⟩
      ⟨2, "b"⟩ = "2" := by decide

example : ("1.02" : String) < "1.10" := string_lt_of_data_lex (by decide)

/-! ### Sortability of the formatted track numbers -/

theorem pyFormatPad_lt {w m n : Nat} (hw : 1 ≤ w) (hm : m < 10 ^ w)
    (hn : n < 10 ^ w) (h : m < n) : pyFormatPad w m < pyFormatPad w n := by
  apply string_lt_of_data_lex
  rw [pyFormatPad_data hm hw, pyFormatPad_data hn hw]
  exact padDigits_map_lex w hm hn h

theorem pyFormatPad_append_lt {W p1 p2 : Nat} (hW : 1 ≤ W)
    (h1 : p1 < 10 ^ W) (h2 : p2 < 10 ^ W) (hlt : p1 < p2) (s t : String) :
    pyFormatPad W p1 ++ "." ++ s < pyFormatPad W p2 ++ "." ++ t := by
  apply string_lt_of_data_lex
  simp only [String.data_append, pyFormatPad_data h1 hW, pyFormatPad_data h2 hW,
    List.append_assoc]
  exact lex_append_of_length_eq (padDigits_map_lex W h1 h2 hlt) (by simp) _ _

theorem string_append_lt_append_left (p : String) {s t : String} (h : s < t) :
    p ++ s < p ++ t := by
  apply string_lt_of_data_lex
  simp only [String.data_append]
  refine lex_append_left ?_ p.data
  rw [String.lt_iff_toList_lt] at h
  exact h

/-- Strictly increasing positions below the padding bound map to strictly
increasing formatted track numbers within one medium. -/
theorem formatTrackNumber_within_medium_lt (mediumList : List MBMedium)
    (medium : MBMedium) {t1 t2 : MBTrack}
    (h1 : t1.position < 10 ^ trackPadding medium)
    (h2 : t2.position < 10 ^ trackPadding medium)
    (hlt : t1.position < t2.position) :
    formatTrackNumber mediumList medium t1 <
      formatTrackNumber mediumList medium t2 := by
  have hw : 1 ≤ trackPadding medium := numDigits_pos _
  by_cases hone : mediumList.length = 1
  · simp only [formatTrackNumber, if_pos hone]
    exact pyFormatPad_lt hw h1 h2 hlt
  · simp only [formatTrackNumber, if_neg hone]
    exact string_append_lt_append_left _ (pyFormatPad_lt hw h1 h2 hlt)

/-- Claim C5.  Under the MusicBrainz data invariant that medium and track
positions are the 1-based indices in their respective lists, the sequence of
track-number strings yielded by `extract_recording_mbids_and_track_number`
is strictly increasing in `String`'s lexicographic order; equivalently, for
any two tracks of the release, (medium, track) position order agrees with
the lexicographic order of the formatted strings.  The formatting itself
(`<medium>.<track>` with each side zero-padded to the width of its
respective count when there are several media, bare zero-padded track
number when there is exactly one) is the definition `formatTrackNumber`. -/
theorem extract_track_numbers_sorted (mediumList : List MBMedium)
    (hcanon : canonicalPositions mediumList) :
    ((extractRecordingMbidsAndTrackNumber mediumList).map (·.2)).Pairwise
      (· < ·) := by
  obtain ⟨hmed, htr⟩ := hcanon
  rw [extractRecordingMbidsAndTrackNumber, List.map_flatten, List.map_map]
  simp only [Function.comp_def, List.map_map]
  rw [List.pairwise_flatten]
  have htrackBound : ∀ medium ∈ mediumList, ∀ j (h : j < medium.trackList.length),
      (medium.trackList[j]).position < 10 ^ trackPadding medium := by
    intro medium hmem j hj
    have hlt := lt_pow_numDigits medium.trackList.length
    have := htr medium hmem j hj
    rw [this]
    unfold trackPadding
    omega
  constructor
  · -- each medium's own block is strictly increasing
    intro l hl
    obtain ⟨medium, hmem, rfl⟩ := List.mem_map.mp hl
    rw [List.pairwise_map, List.pairwise_iff_getElem]
    intro i j hi hj hij
    exact formatTrackNumber_within_medium_lt mediumList medium
      (htrackBound medium hmem i hi) (htrackBound medium hmem j hj)
      (by rw [htr medium hmem i hi, htr medium hmem j hj]; omega)
  · -- blocks of distinct media are totally ordered blockwise
    rw [List.pairwise_iff_getElem]
    intro i j hi hj hij x hx y hy
    simp only [List.length_map] at hi hj
    simp only [List.getElem_map] at hx hy
    by_cases hone : mediumList.length = 1
    · omega
    · obtain ⟨t1, ht1, rfl⟩ := List.mem_map.mp hx
      obtain ⟨t2, ht2, rfl⟩ := List.mem_map.mp hy
      have hW : 1 ≤ mediumPadding mediumList := numDigits_pos _
      have hbound : ∀ k (h : k < mediumList.length),
          (mediumList[k]).position < 10 ^ mediumPadding mediumList := by
        intro k hk
        have hlt := lt_pow_numDigits mediumList.length
        rw [hmed k hk]
        unfold mediumPadding
        omega
      simp only [formatTrackNumber, if_neg hone]
      exact pyFormatPad_append_lt hW (hbound i hi) (hbound j hj)
        (by rw [hmed i hi, hmed j hj]; omega) _ _

/-- Witness for claim C5: a release with 2 media of 11 tracks each has
canonical positions, its yielded track numbers are strictly increasing, and
track 2 of medium 1 formats as `"1.02"`, which sorts before `"1.10"` and
before `"2.01"`. -/
theorem extract_track_numbers_sorted_witness :
    canonicalPositions
        [⟨1, (List.range 11).map fun j => ⟨j + 1, "t"⟩⟩,
         ⟨2, (List.range 11).map fun j => ⟨j + 1, "u"⟩⟩] ∧
    ((extractRecordingMbidsAndTrackNumber
        [⟨1, (List.range 11).map fun j => ⟨j + 1, "t"⟩⟩,
         ⟨2, (List.range 11).map fun j => ⟨j + 1, "u"⟩⟩]).map (·.2)).Pairwise
      (· < ·) ∧
    formatTrackNumber
        [⟨1, (List.range 11).map fun j => ⟨j + 1, "t"⟩⟩,
         ⟨2, (List.range 11).map fun j => ⟨j + 1, "u"⟩⟩]
        ⟨1, (List.range 11).map fun j => ⟨j + 1, "t"⟩⟩ ⟨2, "t"⟩ = "1.02" ∧
    ("1.02" : String) < "1.10" ∧ ("1.02" : String) < "2.01" :=
  ⟨by unfold canonicalPositions; decide,
    extract_track_numbers_sorted _ (by unfold canonicalPositions; decide),
    by decide,
    string_lt_of_data_lex (by decide),
    string_lt_of_data_lex (by decide)⟩

/-! ## Normalized entities and their Notion field-sets

The frozen dataclasses `Artist`, `Release`, `Recording` of
`database_entities.py`, and their `to_page_properties` builders.  A Notion
property value is collapsed to the payload that the `format_*` helpers of
`notion_utils.py` wrap (the wrapping dictionaries are constant shapes). -/

/-- `TEST_URL` of the source (placeholder thumbnail). -/
def TEST_URL : String := "https://images.fanart.tv/fanart/superbus-50576f8295220.jpeg"

/-- A Notion page property payload as produced by the `format_*` helpers. -/
inductive PropValue where
  | title (s : String)
  | richText (s : String)
  | select (s : String)
  | multiSelect (names : List String)
  | number (n : Option Int)
  | checkbox (b : Bool)
  | url (s : String)
  | files (name : String) (fileUrl : String)
  | relation (pageIds : List PageId)
deriving DecidableEq, Repr

/-- A Notion page `properties` dictionary. -/
abbrev Props := List (String × PropValue)

/-- Lookup of a property by key. -/
def propsLookup (props : Props) (k : String) : Option PropValue :=
  (props.find? (fun p => p.1 == k)).map (·.2)

/-- `str(BASE_MUSICBRAINZ_URL / self.entity_type.value / self.mbid)`. -/
def mbUrl (entityType : String) (mbid : MBID) : String :=
  "https://musicbrainz.org/" ++ entityType ++ "/" ++ mbid

/-- The `Artist` dataclass of `database_entities.py`. -/
structure ArtistE where
  mbid : MBID
  name : String
  thumbnail : String
  type : String
  aliases : List String := []
  area : Option String := none
  startYear : Option Int := none
  tags : List String := []
  rating : Option Int := none
deriving DecidableEq, Repr

/-- The `Release` dataclass of `database_entities.py`. -/
structure ReleaseE where
  mbid : MBID
  name : String
  thumbnail : String
  artistMbids : List MBID
  type : String
  firstReleaseYear : Option Int := none
  tags : List String := []
  language : Option String := none
  rating : Option Int := none
deriving DecidableEq, Repr

/-- The `Recording` dataclass of `database_entities.py`. -/
structure RecordingE where
  mbid : MBID
  name : String
  thumbnail : String
  artistMbids : List MBID
  releaseMbids : List MBID
  trackNumber : String
  length : Option Int := none
  tags : List String := []
  rating : Option Int := none
deriving DecidableEq, Repr

/-- The list comprehension `[mbid_to_page_id_map[mbid] for mbid in mbids]`:
a missing key raises `KeyError`, modelled as `none`. -/
def mapAllLookup (m : List (MBID × PageId)) : List MBID → Option (List PageId)
  | [] => some []
  | id :: rest =>
    match mapLookup m id, mapAllLookup m rest with
    | some pid, some pids => some (pid :: pids)
    | _, _ => none

/-- `Artist.to_page_properties` of `database_entities.py`.  Note that the
`To update` key is **not** produced: the line
`ArtistDBProperty.TO_UPDATE: format_checkbox(False)` is commented out in the
source (`# TODO: Uncomment after debugging`). -/
def artistToPageProperties (a : ArtistE) : Props :=
  [ ("Name", .title a.name),
    ("Alias", .richText (String.join a.aliases)),
    ("Type", .select a.type),
    ("Area", .select (pyOrDefault a.area "Unknown")),
    ("Birth/Foundation year", .number a.startYear),
    ("Tags", .multiSelect a.tags),
    ("Thumbnail", .files (a.name ++ " thumbnail (source: Wikipedia)") a.thumbnail),
    ("Rating", .number a.rating),
    ("MusicBrainz URL", .url (mbUrl "artist" a.mbid)) ]

/-- `Release.to_page_properties`: the artist relation indexes the Identifier
Map with `mbid_to_page_id_map[mbid]`, so an unresolved artist raises
`KeyError` (`none`). -/
def releaseToPageProperties (r : ReleaseE) (m : List (MBID × PageId)) :
    Option Props :=
  match mapAllLookup m r.artistMbids with
  | none => none
  | some artistPagesIds =>
    some
      [ ("mbid", .richText r.mbid),
        ("Name", .title r.name),
        ("Artist", .relation artistPagesIds),
        ("Type", .select r.type),
        ("First release year", .number r.firstReleaseYear),
        ("Tags", .multiSelect r.tags),
        ("Language", .select (pyOrDefault r.language "Unknown")),
        ("Thumbnail", .files (r.name ++ " cover") r.thumbnail),
        ("Rating", .number r.rating),
        ("MusicBrainz URL", .url (mbUrl "release" r.mbid)) ]

/-- `Recording.to_page_properties`: the release relation keeps only the
resolvable releases (`mbid_to_page_id_map.get(mbid)` with a filter), while
the artist relation indexes the map and can raise `KeyError`. -/
def recordingToPageProperties (rec : RecordingE) (m : List (MBID × PageId)) :
    Option Props :=
  let releasePagesIds := rec.releaseMbids.filterMap (mapLookup m)
  match mapAllLookup m rec.artistMbids with
  | none => none
  | some artistPagesIds =>
    some
      [ ("mbid", .richText rec.mbid),
        ("Title", .title rec.name),
        ("Release", .relation releasePagesIds),
        ("Track artist(s)", .relation artistPagesIds),
        ("Track number", .richText rec.trackNumber),
        ("Length", .number rec.length),
        ("Tags", .multiSelect rec.tags),
        ("Thumbnail", .files (rec.name ++ " cover") rec.thumbnail),
        ("Rating", .number rec.rating),
        ("MusicBrainz URL", .url (mbUrl "recording" rec.mbid)) ]

/-- The `Artist` variant of `main.py` (the older synchronization pass) and
its `to_page_properties`, which does write `To update: False`. -/
structure MainArtistE where
  mbid : MBID
  name : String
  mbName : String
  aliases : List String
  type : String
  area : String
  startYear : Int
  tags : List String
  thumbnail : String
  rating : Int
deriving DecidableEq, Repr

/-- `Artist.to_page_properties` of `main.py` (lines 258-276). -/
def mainArtistToPageProperties (a : MainArtistE) : Props :=
  [ ("Name (Musicbrainz)", .richText a.mbName),
    ("Alias", .richText (String.join a.aliases)),
    ("Type", .select a.type),
    ("Area", .select a.area),
    ("Birth/Foundation year", .number (some a.startYear)),
    ("Tags", .multiSelect a.tags),
    ("Thumbnail", .files (a.name ++ " thumbnail (source: Wikipedia)") a.thumbnail),
    ("Rating", .number (some a.rating)),
    ("To update", .checkbox false) ]

/-! ## Release normalization — `Release.from_musicbrainz_data`

```python
tag_list = release_data.get("tag-list", [])
artist_mbids = [a["artist"]["id"] for a in release_data["artist-credit"]
                if isinstance(a, dict)]
first_release_year = release_group_data.get("first-release-date", "").split("-")[0]
first_release_year = int(first_release_year) if first_release_year else None
return cls(mbid=release_data["id"], artist_mbids=artist_mbids,
           name=release_data["title"], type=release_group_data["type"],
           first_release_year=first_release_year, tags=..., language=...,
           thumbnail=TEST_URL, rating=get_rating(release_group_data))
```
-/

/-- Character-level splitter modelling Python `s.split(sep)` for a
single-character separator (`"".split("-") == [""]`, empty segments are
kept). -/
def splitOnChar (sep : Char) : List Char → List (List Char)
  | [] => [[]]
  | c :: rest =>
    match splitOnChar sep rest with
    | [] => [[]]
    | hd :: tl => if c = sep then [] :: hd :: tl else (c :: hd) :: tl

/-- Python `s.split("-")`. -/
def pySplitDash (s : String) : List String :=
  (splitOnChar '-' s.data).map List.asString

example : pySplitDash "2001-05-03" = ["2001", "05", "03"] := by decide
example : pySplitDash "" = [""] := by decide
example : pySplitDash "-2001" = ["", "2001"] := by decide

/-- An entry of `release_data["artist-credit"]`: either a credit dictionary
carrying `["artist"]["id"]`, or a bare join-phrase string (filtered out by
the `isinstance(artist_data, dict)` check). -/
inductive ArtistCreditItem where
  | credit (artistId : MBID)
  | joinPhrase (s : String)
deriving DecidableEq, Repr

/-- The fields of a raw MusicBrainz release dictionary read by
`Release.from_musicbrainz_data`; `none` records an absent key (which raises
`KeyError` for the required `id`, `title` and `artist-credit`). -/
structure MBReleaseData where
  id : Option MBID
  title : Option String
  artistCredit : Option (List ArtistCreditItem)
  tagList : List TagDict := []
  textRepLanguage : Option String := none
deriving DecidableEq, Repr

/-- The fields of a raw release-group dictionary read by
`Release.from_musicbrainz_data`; `rating` is the string content of
`rating_dict["rating"]` when the `rating` key is present. -/
structure MBReleaseGroupData where
  type : Option String
  firstReleaseDate : Option String := none
  rating : Option String := none
deriving DecidableEq, Repr

/-- `get_rating`: `int(rating_dict["rating"]) if rating_dict else None`.
The outer `none` models the `ValueError` raised by an unparsable rating
string; `some none` is a missing rating. -/
def getRating (rating : Option String) : Option (Option Int) :=
  match rating with
  | none => some none
  | some s => (pyToInt s).map some

/-- `Release.from_musicbrainz_data(release_data, release_group_data,
min_nb_tags)`; `none` models a raised exception (`KeyError` on a required
field or `ValueError` from `int(...)`). -/
def releaseFromMusicBrainzData (releaseData : MBReleaseData)
    (releaseGroupData : MBReleaseGroupData) (minNbTags : Int) :
    Option ReleaseE :=
  match releaseData.artistCredit with
  | none => none
  | some credits =>
    let artistMbids := credits.filterMap fun item =>
      match item with
      | .credit artistId => some artistId
      | .joinPhrase _ => none
    let firstSeg :=
      (pySplitDash (releaseGroupData.firstReleaseDate.getD "")).headD ""
    let firstReleaseYear? : Option (Option Int) :=
      if firstSeg = "" then some none else (pyToInt firstSeg).map some
    match releaseData.id, releaseData.title, releaseGroupData.type,
        firstReleaseYear?, getRating releaseGroupData.rating with
    | some mbid, some title, some ty, some year, some rating =>
      some
        { mbid := mbid
          name := title
          thumbnail := TEST_URL
          artistMbids := artistMbids
          type := ty
          firstReleaseYear := year
          tags := selectTags releaseData.tagList minNbTags
          language := releaseData.textRepLanguage
          rating := rating }
    | _, _, _, _, _ => none

example :
    releaseFromMusicBrainzData
      ⟨some "r1", some "R", some [.credit "a1", .joinPhrase " & ", .credit "a2"],
        [], none⟩
      ⟨some "Album", some "2001-05-03", none⟩ 3 =
    some
      { mbid := "r1", name := "R", thumbnail := TEST_URL,
        artistMbids := ["a1", "a2"], type := "Album",
        firstReleaseYear := some 2001, tags := [], language := none,
        rating := none } := by
  decide

/-! ### Claims C8, C7, C9 -/

/-- Claim C8 counterexample: on a release group whose
`first-release-date` is `"19xx"` (present but with an unparsable leading
segment), normalization raises `ValueError` from `int("19xx")` — modelled
as `none` — instead of producing a release whose first-release-year is
`None` as the claim states. -/
theorem releaseFromMusicBrainzData_unparsable_date_counterexample :
    releaseFromMusicBrainzData ⟨some "r1", some "R", some [], [], none⟩
      ⟨some "Album", some "19xx", none⟩ 3 = none := by
  decide

/-- Claim C8, amended.  Assume the required raw fields are present and the
release-group rating is absent or parsable.  Writing `seg` for the leading
segment of the `first-release-date` string (empty when the date is absent):
when `seg` is empty the normalization succeeds with first-release-year
`None`; when `seg` parses as an integer `k` it succeeds with
first-release-year `k`; but when `seg` is nonempty and unparsable the
normalization raises (it does not default to `None`). -/
theorem releaseFromMusicBrainzData_first_release_year (rd : MBReleaseData)
    (rg : MBReleaseGroupData) (minNbTags : Int)
    (hid : rd.id.isSome) (htitle : rd.title.isSome)
    (hcredit : rd.artistCredit.isSome) (hty : rg.type.isSome)
    (hrating : (getRating rg.rating).isSome) :
    ((pySplitDash (rg.firstReleaseDate.getD "")).headD "" = "" →
      ∃ r, releaseFromMusicBrainzData rd rg minNbTags = some r ∧
        r.firstReleaseYear = none) ∧
    (∀ k : Int,
      pyToInt ((pySplitDash (rg.firstReleaseDate.getD "")).headD "") = some k →
      ∃ r, releaseFromMusicBrainzData rd rg minNbTags = some r ∧
        r.firstReleaseYear = some k) ∧
    ((pySplitDash (rg.firstReleaseDate.getD "")).headD "" ≠ "" →
      pyToInt ((pySplitDash (rg.firstReleaseDate.getD "")).headD "") = none →
      releaseFromMusicBrainzData rd rg minNbTags = none) := by
  obtain ⟨mbidv, hid⟩ := Option.isSome_iff_exists.mp hid
  obtain ⟨titlev, htitle⟩ := Option.isSome_iff_exists.mp htitle
  obtain ⟨credits, hcredit⟩ := Option.isSome_iff_exists.mp hcredit
  obtain ⟨tyv, hty⟩ := Option.isSome_iff_exists.mp hty
  obtain ⟨ratingv, hrating⟩ := Option.isSome_iff_exists.mp hrating
  refine ⟨?_, ?_, ?_⟩
  · intro hseg
    rw [List.headD_eq_head?_getD] at hseg
    simp [releaseFromMusicBrainzData, hid, htitle, hcredit, hty, hrating, hseg]
  · intro k hk
    have hseg : (pySplitDash (rg.firstReleaseDate.getD "")).headD "" ≠ "" := by
      intro hempty
      rw [hempty] at hk
      simp [pyToInt, digitsToNat?] at hk
    rw [List.headD_eq_head?_getD] at hseg hk
    simp [releaseFromMusicBrainzData, hid, htitle, hcredit, hty, hrating,
      hseg, hk]
  · intro hseg hk
    rw [List.headD_eq_head?_getD] at hseg hk
    simp [releaseFromMusicBrainzData, hid, htitle, hcredit, hty, hrating,
      hseg, hk]

/-- Witness for the amended claim C8, on a release group dated
`"2001-05-03"`: the leading segment parses and becomes the
first-release-year. -/
theorem releaseFromMusicBrainzData_first_release_year_witness :
    ∃ r, releaseFromMusicBrainzData ⟨some "r1", some "R", some [], [], none⟩
        ⟨some "Album", some "2001-05-03", none⟩ 3 = some r ∧
      r.firstReleaseYear = some 2001 :=
  (releaseFromMusicBrainzData_first_release_year
      ⟨some "r1", some "R", some [], [], none⟩
      ⟨some "Album", some "2001-05-03", none⟩ 3
      (by decide) (by decide) (by decide) (by decide) (by decide)).2.1
    2001 (by decide)

/-- Claim C7 counterexample: building the field-set of a release that
credits artist `"a1"` against an Identifier Map that does not contain
`"a1"` raises `KeyError` (the builder fails); relational fields referencing
unresolved artists are not omitted. -/
theorem releaseToPageProperties_missing_artist_counterexample :
    releaseToPageProperties
      { mbid := "r1", name := "R", thumbnail := TEST_URL,
        artistMbids := ["a1"], type := "Album" } [] = none := by
  decide

theorem mapAllLookup_isSome {m : List (MBID × PageId)} :
    ∀ {ids : List MBID}, (∀ id ∈ ids, (mapLookup m id).isSome) →
      ∃ pids, mapAllLookup m ids = some pids
  | [], _ => ⟨[], rfl⟩
  | id :: rest, h => by
    obtain ⟨pid, hpid⟩ :=
      Option.isSome_iff_exists.mp (h id (List.mem_cons_self id rest))
    obtain ⟨pids, hpids⟩ :=
      mapAllLookup_isSome fun x hx => h x (List.mem_cons_of_mem id hx)
    exact ⟨pid :: pids, by simp [mapAllLookup, hpid, hpids]⟩

/-- Claim C7, amended.  The field-set builders succeed whenever every
*artist* id they reference is resolvable in the Identifier Map; under that
condition a recording's release relation is exactly the resolvable subset
of its release ids (unresolved releases are silently omitted and never make
the builder fail).  Unresolved artist ids, by contrast, do make the
builders fail (see the counterexample). -/
theorem toPageProperties_resolvable_spec :
    (∀ (r : ReleaseE) (m : List (MBID × PageId)),
      (∀ id ∈ r.artistMbids, (mapLookup m id).isSome) →
      (releaseToPageProperties r m).isSome) ∧
    (∀ (rec : RecordingE) (m : List (MBID × PageId)),
      (∀ id ∈ rec.artistMbids, (mapLookup m id).isSome) →
      ∃ props, recordingToPageProperties rec m = some props ∧
        propsLookup props "Release" =
          some (.relation (rec.releaseMbids.filterMap (mapLookup m)))) := by
  constructor
  · intro r m h
    obtain ⟨pids, hpids⟩ := mapAllLookup_isSome h
    simp [releaseToPageProperties, hpids]
  · intro rec m h
    obtain ⟨pids, hpids⟩ := mapAllLookup_isSome h
    have hrec : recordingToPageProperties rec m = some
        [ ("mbid", .richText rec.mbid),
          ("Title", .title rec.name),
          ("Release", .relation (rec.releaseMbids.filterMap (mapLookup m))),
          ("Track artist(s)", .relation pids),
          ("Track number", .richText rec.trackNumber),
          ("Length", .number rec.length),
          ("Tags", .multiSelect rec.tags),
          ("Thumbnail", .files (rec.name ++ " cover") rec.thumbnail),
          ("Rating", .number rec.rating),
          ("MusicBrainz URL", .url (mbUrl "recording" rec.mbid)) ] := by
      simp [recordingToPageProperties, hpids]
    exact ⟨_, hrec, by simp [propsLookup, List.find?]⟩

/-- Witness for the amended claim C7: with artist `"a1"` resolvable and
release `"r9"` unresolvable, the recording builder succeeds and its release
relation is the resolvable subset (empty here). -/
theorem toPageProperties_resolvable_spec_witness :
    ∃ props,
      recordingToPageProperties
        { mbid := "t1", name := "T", thumbnail := TEST_URL,
          artistMbids := ["a1"], releaseMbids := ["r9"], trackNumber := "1" }
        [("a1", 7)] = some props ∧
      propsLookup props "Release" =
        some (.relation ((["r9"] : List MBID).filterMap
          (mapLookup [("a1", 7)]))) :=
  (toPageProperties_resolvable_spec).2
    { mbid := "t1", name := "T", thumbnail := TEST_URL,
      artistMbids := ["a1"], releaseMbids := ["r9"], trackNumber := "1" }
    [("a1", 7)] (by decide)

/-- Claim C9.  The current `Artist.to_page_properties` of
`database_entities.py` never emits the `To update` key at all (the line is
commented out pending debugging), so the written field-set does not clear
the needs-update marker; the older `main.py` variant of the pass did write
`To update: False` for every artist it processed. -/
theorem artist_to_update_marker :
    (∀ a : ArtistE,
      propsLookup (artistToPageProperties a) "To update" = none) ∧
    (∀ a : MainArtistE,
      propsLookup (mainArtistToPageProperties a) "To update" =
        some (.checkbox false)) := by
  constructor <;> intro a <;>
    simp [propsLookup, artistToPageProperties, mainArtistToPageProperties,
      List.find?]

/-! ## The Notion store model and the synchronization engine

`update_notion_page` (database_entities.py lines 149-223) and
`_add_entity_type_missing_related` (lines 278-342) run against the Notion
Workspace Store, modelled operationally:

* a page is a record with an allocated id, a hosting database, a
  `properties` dictionary, an icon, and an archived flag;
* `notion_api.databases.query` with the
  `\x7b"property": "mbid", "rich_text": \x7b"equals": mbid\x7d\x7d` filter
  returns the pages of the database whose `mbid` rich-text property equals
  the value — a page without the property behaves as the empty string, and
  pages in the trash are not returned;
* `notion_api.pages.create` allocates a fresh id and stores the given
  properties; `notion_api.pages.update` merges the given properties into
  the page (keys not mentioned keep their value);
* every request issued by the embedded code is appended to a trace.
-/

/-- One page of the modelled Notion store. -/
structure NPage where
  pageId : PageId
  db : Nat
  props : Props
  icon : String
  archived : Bool := false
deriving DecidableEq, Repr

/-- The Notion store: its pages and the next fresh page id. -/
structure Store where
  pages : List NPage
  nextId : PageId
deriving DecidableEq, Repr

/-- One request issued to an external collaborator: the store query by
mbid, a page creation (recording the created page's id and properties), a
property update, an archival (`pages.update(archived=True)`), a MusicBrainz
artist fetch, and the stale sweep's relation-filtered query (recording the
ids of the returned pages). -/
inductive StoreCall where
  | queryMbid (db : Nat) (mbid : MBID)
  | create (db : Nat) (pid : PageId) (props : Props)
  | updatePage (pid : PageId)
  | archivePage (pid : PageId)
  | fetchArtist (mbid : MBID)
  | queryRelation (db : Nat) (returnedIds : List PageId)
deriving DecidableEq, Repr

/-- The value of a page's `mbid` rich-text property, when set. -/
def NPage.mbidProp (p : NPage) : Option String :=
  match propsLookup p.props "mbid" with
  | some (.richText s) => some s
  | _ => none

/-- The mbid-equality query of `update_notion_page`: live pages of the
database whose `mbid` rich-text property equals `mbid` (a page without the
property carries the empty string). -/
def Store.queryByMbid (s : Store) (db : Nat) (mbid : MBID) : List NPage :=
  s.pages.filter fun p =>
    p.db == db && !p.archived && (p.mbidProp.getD "" == mbid)

/-- `notion_api.pages.create`. -/
def Store.createPage (s : Store) (db : Nat) (props : Props) (icon : String) :
    Store × PageId :=
  ({ pages := s.pages ++
      [{ pageId := s.nextId, db := db, props := props, icon := icon }],
     nextId := s.nextId + 1 }, s.nextId)

/-- Python-dict insertion for properties (same semantics as `mapInsert`). -/
def propsInsert (props : Props) (k : String) (v : PropValue) : Props :=
  match props with
  | [] => [(k, v)]
  | (k', v') :: rest =>
    if k' = k then (k, v) :: rest else (k', v') :: propsInsert rest k v

/-- Notion `pages.update` property semantics: mentioned keys are
overwritten, unmentioned keys keep their value. -/
def propsMerge (old new : Props) : Props :=
  new.foldl (fun acc kv => propsInsert acc kv.1 kv.2) old

/-- `notion_api.pages.update(page_id, properties=..., icon=...)`. -/
def Store.updatePageProps (s : Store) (pid : PageId) (props : Props)
    (icon : String) : Store :=
  { s with pages := s.pages.map fun p =>
      if p.pageId = pid then
        { p with props := propsMerge p.props props, icon := icon }
      else p }

/-- `notion_api.pages.update(page_id, archived=True)`. -/
def Store.archive (s : Store) (pid : PageId) : Store :=
  { s with pages := s.pages.map fun p =>
      if p.pageId = pid then { p with archived := true } else p }

/-- The mutable state threaded through a synchronization run: the store,
the Identifier Map (`mbid_to_page_id_map`), the request trace, and the ids
whose MusicBrainz fetch failed and was logged. -/
structure SyncState where
  store : Store
  idMap : List (MBID × PageId)
  trace : List StoreCall
  errLog : List MBID
deriving DecidableEq, Repr

/-- The query / update-or-create core of `update_notion_page` (lines
179-223): query the entity's database by mbid; update the first match, or
create a new page and record the entity in the Identifier Map.  `none`
models an exception escaping the call (in the source every exception is
logged and re-raised).  The returned `PageId` is
`response[PropertyField.ID]`. -/
def syncCore (db : Nat) (mbid : MBID)
    (buildProps : List (MBID × PageId) → Option Props) (icon : String)
    (st : SyncState) : Option (SyncState × PageId) :=
  let st1 := { st with trace := st.trace ++ ([.queryMbid db mbid] : List StoreCall) }
  match st1.store.queryByMbid db mbid with
  | page :: _ =>
    match buildProps st1.idMap with
    | none => none
    | some props =>
      some ({ st1 with
                store := st1.store.updatePageProps page.pageId props icon,
                trace := st1.trace ++ ([.updatePage page.pageId] : List StoreCall) },
            page.pageId)
  | [] =>
    match buildProps st1.idMap with
    | none => none
    | some props =>
      let created := st1.store.createPage db props icon
      some ({ store := created.1,
              idMap := mapInsert st1.idMap mbid created.2,
              trace := st1.trace ++ ([.create db created.2 props] : List StoreCall),
              errLog := st1.errLog }, created.2)

/-- The raw MusicBrainz artist fields read by
`Artist.from_musicbrainz_data`; `lifeSpanBegin` is
`life-span["begin"]` when the `life-span` key is present, `rating` is
`rating["rating"]` when the `rating` key is present. -/
structure RawArtist where
  id : Option MBID
  name : Option String
  type : Option String
  aliasList : List String := []
  area : Option String := none
  lifeSpanBegin : Option String := none
  tagList : List TagDict := []
  rating : Option String := none
deriving DecidableEq, Repr

/-- `get_start_year`: `int(life_span_dict["begin"]) if life_span_dict else
None`; the outer `none` is the `ValueError` of `int(...)`. -/
def getStartYear (lifeSpanBegin : Option String) : Option (Option Int) :=
  match lifeSpanBegin with
  | none => some none
  | some s => (pyToInt s).map some

/-- `Artist.from_musicbrainz_data(artist_data, min_nb_tags)`; `none` models
a raised `KeyError`/`ValueError`. -/
def artistFromMusicBrainzData (d : RawArtist) (minNbTags : Int) :
    Option ArtistE :=
  match d.id, d.name, d.type, getStartYear d.lifeSpanBegin,
      getRating d.rating with
  | some id, some name, some ty, some sy, some rt =>
    some { mbid := id, name := name, thumbnail := TEST_URL, type := ty,
           aliases := d.aliasList, area := d.area, startYear := sy,
           tags := selectTags d.tagList minNbTags, rating := rt }
  | _, _, _, _, _ => none

/-- The Notion database ids of the three entity kinds
(`database_ids[EntityType]`). -/
structure DatabaseIds where
  artistDb : Nat
  releaseDb : Nat
  recordingDb : Nat
deriving DecidableEq, Repr

/-- `Artist.update_notion_page`: `Artist._add_missing_related_pages` is a
no-op, so it is exactly the query / update-or-create core over the artist
database and the artist's field-set builder (which ignores the map). -/
def artistUpdateNotionPage (a : ArtistE) (dbIds : DatabaseIds)
    (st : SyncState) : Option (SyncState × PageId) :=
  syncCore dbIds.artistDb a.mbid (fun _ => some (artistToPageProperties a))
    "artist-icon" st

/-- The `for missing_entity_mbid in missing_entity_mbids` loop of
`_add_entity_type_missing_related`: fetch the artist (a failed fetch is
logged inside `fetch_artist_data` and the id skipped), normalize it
(exceptions propagate), synchronize it, and record the response id in the
Identifier Map. -/
def fetchLoop (oracle : MBID → Option RawArtist) (dbIds : DatabaseIds)
    (minNbTags : Int) : List MBID → SyncState → Option SyncState
  | [], st => some st
  | id :: rest, st =>
    let st1 := { st with trace := st.trace ++ ([.fetchArtist id] : List StoreCall) }
    match oracle id with
    | none =>
      fetchLoop oracle dbIds minNbTags rest
        { st1 with errLog := st1.errLog ++ [id] }
    | some d =>
      match artistFromMusicBrainzData d minNbTags with
      | none => none
      | some artist =>
        match artistUpdateNotionPage artist dbIds st1 with
        | none => none
        | some (st2, responseId) =>
          fetchLoop oracle dbIds minNbTags rest
            { st2 with idMap := mapInsert st2.idMap artist.mbid responseId }

/-- `_add_entity_type_missing_related(entity_mbids, Artist, ...)`:
`missing_entity_mbids = set(entity_mbids) - set(mbid_to_page_id_map)`.
Python set iteration order is unspecified; the model fixes an order (the
deduplicated id list filtered to the ids absent from the map). -/
def addEntityTypeMissingRelated (entityMbids : List MBID)
    (oracle : MBID → Option RawArtist) (dbIds : DatabaseIds)
    (minNbTags : Int) (st : SyncState) : Option SyncState :=
  fetchLoop oracle dbIds minNbTags
    (entityMbids.dedup.filter fun id => mapLookup st.idMap id = none) st

/-- `MusicBrainzEntity.update_notion_page` for an entity with related
artists (`Release` and `Recording`): first materialize the missing related
artists, then run the query / update-or-create core. -/
def updateNotionPage (relatedArtistMbids : List MBID) (db : Nat)
    (mbid : MBID) (buildProps : List (MBID × PageId) → Option Props)
    (icon : String) (oracle : MBID → Option RawArtist)
    (dbIds : DatabaseIds) (minNbTags : Int) (st : SyncState) :
    Option (SyncState × PageId) :=
  match addEntityTypeMissingRelated relatedArtistMbids oracle dbIds
      minNbTags st with
  | none => none
  | some st1 => syncCore db mbid buildProps icon st1

/-- `Release.update_notion_page`. -/
def releaseUpdateNotionPage (r : ReleaseE) (oracle : MBID → Option RawArtist)
    (dbIds : DatabaseIds) (minNbTags : Int) (st : SyncState) :
    Option (SyncState × PageId) :=
  updateNotionPage r.artistMbids dbIds.releaseDb r.mbid
    (releaseToPageProperties r) "release-icon" oracle dbIds minNbTags st

/-- `Recording.update_notion_page`. -/
def recordingUpdateNotionPage (rec : RecordingE)
    (oracle : MBID → Option RawArtist) (dbIds : DatabaseIds)
    (minNbTags : Int) (st : SyncState) : Option (SyncState × PageId) :=
  updateNotionPage rec.artistMbids dbIds.recordingDb rec.mbid
    (recordingToPageProperties rec) "recording-icon" oracle dbIds minNbTags st

/-- Number of `create` calls in a trace. -/
def countCreates (tr : List StoreCall) : Nat :=
  (tr.filter fun c => match c with
    | .create _ _ _ => true
    | _ => false).length

/-- Number of property-update calls in a trace. -/
def countUpdates (tr : List StoreCall) : Nat :=
  (tr.filter fun c => match c with
    | .updatePage _ => true
    | _ => false).length

/-- Number of archival calls for one page in a trace. -/
def countArchivesOf (pid : PageId) (tr : List StoreCall) : Nat :=
  (tr.filter fun c => match c with
    | .archivePage q => q == pid
    | _ => false).length

/-- Number of archival calls in a trace. -/
def countArchives (tr : List StoreCall) : Nat :=
  (tr.filter fun c => match c with
    | .archivePage _ => true
    | _ => false).length

/-! ### Characterization of the query / update-or-create core -/

theorem syncCore_spec {db : Nat} {mbid : MBID}
    {bp : List (MBID × PageId) → Option Props} {icon : String}
    {st st' : SyncState} {pid : PageId}
    (h : syncCore db mbid bp icon st = some (st', pid)) :
    ∃ props, bp st.idMap = some props ∧
      ((st.store.queryByMbid db mbid = [] ∧
        pid = st.store.nextId ∧
        st'.store = (st.store.createPage db props icon).1 ∧
        st'.idMap = mapInsert st.idMap mbid pid ∧
        st'.trace = st.trace ++ [.queryMbid db mbid, .create db pid props] ∧
        st'.errLog = st.errLog) ∨
      (∃ page rest, st.store.queryByMbid db mbid = page :: rest ∧
        pid = page.pageId ∧
        st'.store = st.store.updatePageProps page.pageId props icon ∧
        st'.idMap = st.idMap ∧
        st'.trace = st.trace ++ [.queryMbid db mbid, .updatePage pid] ∧
        st'.errLog = st.errLog)) := by
  simp only [syncCore] at h
  cases hq : st.store.queryByMbid db mbid with
  | nil =>
    rw [hq] at h
    cases hbp : bp st.idMap with
    | none => rw [hbp] at h; exact absurd h (by simp)
    | some props =>
      rw [hbp] at h
      simp only [Option.some.injEq, Prod.mk.injEq] at h
      obtain ⟨hst', hpid⟩ := h
      subst hst'
      subst hpid
      exact ⟨props, rfl, Or.inl ⟨rfl, rfl, rfl, rfl, by simp, rfl⟩⟩
  | cons page rest =>
    rw [hq] at h
    cases hbp : bp st.idMap with
    | none => rw [hbp] at h; exact absurd h (by simp)
    | some props =>
      rw [hbp] at h
      simp only [Option.some.injEq, Prod.mk.injEq] at h
      obtain ⟨hst', hpid⟩ := h
      subst hst'
      subst hpid
      exact ⟨props, rfl, Or.inr ⟨page, rest, rfl, rfl, rfl, rfl, by simp, rfl⟩⟩

/-- When every related artist id is already in the Identifier Map, the
materialization step is a no-op. -/
theorem addEntityTypeMissingRelated_resolved {related : List MBID}
    {oracle : MBID → Option RawArtist} {dbIds : DatabaseIds} {mt : Int}
    {st : SyncState}
    (hrel : ∀ id ∈ related, (mapLookup st.idMap id).isSome) :
    addEntityTypeMissingRelated related oracle dbIds mt st = some st := by
  unfold addEntityTypeMissingRelated
  have hfilter :
      related.dedup.filter (fun id => mapLookup st.idMap id = none) = [] := by
    rw [List.filter_eq_nil_iff]
    intro id hid
    have := hrel id (List.mem_dedup.mp hid)
    simp only [decide_eq_true_eq]
    intro hcontra
    rw [hcontra] at this
    simp at this
  rw [hfilter]
  rfl

/-- Pages created with a field-set carrying the entity's `mbid` are found
by subsequent mbid queries for it. -/
theorem queryByMbid_createPage_match {s : Store} {db : Nat} {mbid : MBID}
    {props : Props} {icon : String}
    (hq : s.queryByMbid db mbid = [])
    (hmbid : propsLookup props "mbid" = some (.richText mbid)) :
    ((s.createPage db props icon).1).queryByMbid db mbid =
      [{ pageId := s.nextId, db := db, props := props, icon := icon }] := by
  unfold Store.queryByMbid at hq ⊢
  unfold Store.createPage
  rw [List.filter_append, hq]
  simp [NPage.mbidProp, hmbid]

/-- Claim C2, amended.  For an entity whose field-set builder writes the
entity's `mbid` property (as `Release.to_page_properties` and
`Recording.to_page_properties` do) and whose related artists are already
resolved in the Identifier Map, synchronizing twice in a row with the map
unchanged between calls issues exactly one store create on the first call
(and no update), and exactly one store update on the second call (of the
page created first, and no create): never two creates.  The claim's
universal version over *all* entities is false, because
`Artist.to_page_properties` does not write the `mbid` property, so a second
artist synchronization cannot find the page it created and creates again
(see the counterexample). -/
theorem updateNotionPage_create_then_update
    {related : List MBID} {db : Nat} {mbid : MBID}
    {bp : List (MBID × PageId) → Option Props} {icon : String}
    {oracle : MBID → Option RawArtist} {dbIds : DatabaseIds} {mt : Int}
    {st0 st1 st2 : SyncState} {pid1 pid2 : PageId}
    (hrel : ∀ id ∈ related, (mapLookup st0.idMap id).isSome)
    (hq0 : st0.store.queryByMbid db mbid = [])
    (hbp : ∀ m props, bp m = some props →
      propsLookup props "mbid" = some (.richText mbid))
    (h1 : updateNotionPage related db mbid bp icon oracle dbIds mt st0 =
      some (st1, pid1))
    (h2 : updateNotionPage related db mbid bp icon oracle dbIds mt st1 =
      some (st2, pid2)) :
    countCreates (st1.trace.drop st0.trace.length) = 1 ∧
    countUpdates (st1.trace.drop st0.trace.length) = 0 ∧
    countCreates (st2.trace.drop st1.trace.length) = 0 ∧
    countUpdates (st2.trace.drop st1.trace.length) = 1 ∧
    pid2 = pid1 ∧
    countCreates (st2.trace.drop st0.trace.length) = 1 := by
  rw [updateNotionPage, addEntityTypeMissingRelated_resolved hrel] at h1
  obtain ⟨props1, hbp1, hcase1⟩ := syncCore_spec h1
  rcases hcase1 with
    ⟨-, hpid1, hstore1, hmap1, htrace1, -⟩ |
    ⟨page, rest, hqbad, -, -, -, -, -⟩
  swap
  · rw [hq0] at hqbad
    exact absurd hqbad (by simp)
  have hrel1 : ∀ id ∈ related, (mapLookup st1.idMap id).isSome := by
    intro id hid
    rw [hmap1]
    exact mapLookup_mapInsert_isSome _ _ _ _ (hrel id hid)
  rw [updateNotionPage, addEntityTypeMissingRelated_resolved hrel1] at h2
  obtain ⟨props2, hbp2, hcase2⟩ := syncCore_spec h2
  have hq1 : st1.store.queryByMbid db mbid =
      [{ pageId := st0.store.nextId, db := db, props := props1,
         icon := icon }] := by
    rw [hstore1]
    exact queryByMbid_createPage_match hq0 (hbp _ _ hbp1)
  rcases hcase2 with
    ⟨hqbad, -, -, -, -, -⟩ |
    ⟨page, rest, hqpage, hpid2, -, -, htrace2, -⟩
  · rw [hq1] at hqbad
    exact absurd hqbad (by simp)
  rw [hq1] at hqpage
  simp only [List.cons.injEq] at hqpage
  have hpid2' : pid2 = pid1 := by
    rw [hpid2, ← hqpage.1, hpid1]
  refine ⟨?_, ?_, ?_, ?_, hpid2', ?_⟩
  · rw [htrace1, List.drop_left]
    simp [countCreates, List.filter]
  · rw [htrace1, List.drop_left]
    simp [countUpdates, List.filter]
  · rw [htrace2, List.drop_left]
    simp [countCreates, List.filter]
  · rw [htrace2, List.drop_left]
    simp [countUpdates, List.filter]
  · rw [htrace2, htrace1, List.append_assoc, List.drop_left]
    simp [countCreates, List.filter]

/-- Runs a synchronization twice and returns the final trace (used to state
closed counterexamples). -/
def runSyncTwiceTrace (f : SyncState → Option (SyncState × PageId))
    (st : SyncState) : Option (List StoreCall) :=
  match f st with
  | none => none
  | some (st1, _) =>
    match f st1 with
    | none => none
    | some (st2, _) => some st2.trace

/-- Claim C2 counterexample: synchronizing the same normalized artist twice
in a row, starting from an empty store, issues **two** create calls and no
update, because `Artist.to_page_properties` does not write the `mbid`
property, so the second call's store query cannot find the page created by
the first call. -/
theorem artist_sync_twice_two_creates_counterexample :
    (runSyncTwiceTrace
        (artistUpdateNotionPage
          { mbid := "a1", name := "A", thumbnail := TEST_URL, type := "Group" }
          ⟨0, 1, 2⟩)
        ⟨⟨[], 0⟩, [], [], []⟩).map countCreates = some 2 ∧
    (runSyncTwiceTrace
        (artistUpdateNotionPage
          { mbid := "a1", name := "A", thumbnail := TEST_URL, type := "Group" }
          ⟨0, 1, 2⟩)
        ⟨⟨[], 0⟩, [], [], []⟩).map countUpdates = some 0 := by
  constructor <;> decide

theorem releaseToPageProperties_mbid (r : ReleaseE) :
    ∀ m props, releaseToPageProperties r m = some props →
      propsLookup props "mbid" = some (.richText r.mbid) := by
  intro m props h
  unfold releaseToPageProperties at h
  cases hm : mapAllLookup m r.artistMbids with
  | none => rw [hm] at h; exact absurd h (by simp)
  | some pids =>
    rw [hm] at h
    simp only [Option.some.injEq] at h
    subst h
    simp [propsLookup, List.find?]

/-- The concrete release used to exercise the create-then-update protocol:
it credits artist `"a1"`, which is already resolved in the starting map. -/
def c2Release : ReleaseE :=
  { mbid := "r1", name := "R", thumbnail := TEST_URL,
    artistMbids := ["a1"], type := "Album" }

/-- Starting state of the create-then-update run: empty store, artist
`"a1"` resolved to page 5. -/
def c2St0 : SyncState := ⟨⟨[], 0⟩, [("a1", 5)], [], []⟩

/-- Result of the first synchronization of `c2Release`. -/
def c2Out1 : SyncState × PageId :=
  (updateNotionPage ["a1"] 1 "r1" (releaseToPageProperties c2Release) "i"
    (fun _ => none) ⟨0, 1, 2⟩ 3 c2St0).getD (⟨⟨[], 0⟩, [], [], []⟩, 0)

/-- Result of the second synchronization of `c2Release`. -/
def c2Out2 : SyncState × PageId :=
  (updateNotionPage ["a1"] 1 "r1" (releaseToPageProperties c2Release) "i"
    (fun _ => none) ⟨0, 1, 2⟩ 3 c2Out1.1).getD (⟨⟨[], 0⟩, [], [], []⟩, 0)

/-- Witness for the amended claim C2: a release crediting the already
resolved artist `"a1"`, synchronized twice against an initially empty
store, is created exactly once and then updated exactly once. -/
theorem updateNotionPage_create_then_update_witness :
    updateNotionPage ["a1"] 1 "r1" (releaseToPageProperties c2Release) "i"
      (fun _ => none) ⟨0, 1, 2⟩ 3 c2St0 = some c2Out1 ∧
    updateNotionPage ["a1"] 1 "r1" (releaseToPageProperties c2Release) "i"
      (fun _ => none) ⟨0, 1, 2⟩ 3 c2Out1.1 = some c2Out2 ∧
    countCreates c2Out1.1.trace = 1 ∧
    countUpdates (c2Out2.1.trace.drop c2Out1.1.trace.length) = 1 ∧
    countCreates c2Out2.1.trace = 1 := by
  have h1 : updateNotionPage ["a1"] 1 "r1" (releaseToPageProperties c2Release)
      "i" (fun _ => none) ⟨0, 1, 2⟩ 3 c2St0 = some c2Out1 := by decide
  have h2 : updateNotionPage ["a1"] 1 "r1" (releaseToPageProperties c2Release)
      "i" (fun _ => none) ⟨0, 1, 2⟩ 3 c2Out1.1 = some c2Out2 := by decide
  have main :=
    updateNotionPage_create_then_update
      (show ∀ id ∈ ["a1"], (mapLookup c2St0.idMap id).isSome by decide)
      (show c2St0.store.queryByMbid 1 "r1" = [] by decide)
      (releaseToPageProperties_mbid _) h1 h2
  exact ⟨h1, h2, by simpa using main.1, main.2.2.2.1,
    by simpa using main.2.2.2.2.2⟩

/-- Claim C10, amended.  With all related artist ids already resolved in
the Identifier Map (so the materialization step is a no-op), the update
branch of `update_notion_page` leaves the Identifier Map completely
unchanged, and the create branch inserts exactly the entity's own id.
Without that proviso the claim is false: the materialization step that runs
before the branch is chosen inserts entries for missing related artists
even when the entity itself takes the update branch (see the
counterexample). -/
theorem updateNotionPage_idMap_frame
    {related : List MBID} {db : Nat} {mbid : MBID}
    {bp : List (MBID × PageId) → Option Props} {icon : String}
    {oracle : MBID → Option RawArtist} {dbIds : DatabaseIds} {mt : Int}
    {st0 st' : SyncState} {pid : PageId}
    (hrel : ∀ id ∈ related, (mapLookup st0.idMap id).isSome)
    (h : updateNotionPage related db mbid bp icon oracle dbIds mt st0 =
      some (st', pid)) :
    (st0.store.queryByMbid db mbid ≠ [] → st'.idMap = st0.idMap) ∧
    (st0.store.queryByMbid db mbid = [] →
      st'.idMap = mapInsert st0.idMap mbid pid) := by
  rw [updateNotionPage, addEntityTypeMissingRelated_resolved hrel] at h
  obtain ⟨props, hbp, hcase⟩ := syncCore_spec h
  rcases hcase with ⟨hq, -, -, hmap, -, -⟩ | ⟨page, rest, hq, -, -, hmap, -, -⟩
  · exact ⟨fun hne => absurd hq hne, fun _ => hmap⟩
  · refine ⟨fun _ => hmap, fun hnil => ?_⟩
    rw [hq] at hnil
    exact absurd hnil (by simp)

/-- The oracle used by the concrete frame-effect counterexample: artist
`"a1"` exists upstream, everything else does not. -/
def c10Oracle : MBID → Option RawArtist := fun a =>
  if a = "a1" then
    some { id := some "a1", name := some "A", type := some "Group" }
  else none

/-- Claim C10 counterexample: synchronizing a release whose page already
exists in the store (update branch) while its credited artist `"a1"` is
missing from the Identifier Map.  The call takes the update branch (one
update call on the release page) yet the Identifier Map changes from `[]`
to `[("a1", 1)]`, because the materialization step created the artist page
and registered it. -/
theorem updateNotionPage_update_branch_map_changed_counterexample :
    ((releaseUpdateNotionPage
        { mbid := "r1", name := "R", thumbnail := TEST_URL,
          artistMbids := ["a1"], type := "Album" }
        c10Oracle ⟨0, 1, 2⟩ 3
        ⟨⟨[⟨0, 1, [("mbid", .richText "r1")], "i", false⟩], 1⟩,
          [], [], []⟩).map (fun out => out.1.idMap)) = some [("a1", 1)] ∧
    ((releaseUpdateNotionPage
        { mbid := "r1", name := "R", thumbnail := TEST_URL,
          artistMbids := ["a1"], type := "Album" }
        c10Oracle ⟨0, 1, 2⟩ 3
        ⟨⟨[⟨0, 1, [("mbid", .richText "r1")], "i", false⟩], 1⟩,
          [], [], []⟩).map (fun out => countUpdates out.1.trace)) = some 1 ∧
    ((releaseUpdateNotionPage
        { mbid := "r1", name := "R", thumbnail := TEST_URL,
          artistMbids := ["a1"], type := "Album" }
        c10Oracle ⟨0, 1, 2⟩ 3
        ⟨⟨[⟨0, 1, [("mbid", .richText "r1")], "i", false⟩], 1⟩,
          [], [], []⟩).map (fun out => countCreates out.1.trace)) =
      some 1 := by
  refine ⟨?_, ?_, ?_⟩ <;> decide

/-- Witness for the amended claim C10: the update branch with the artist
already resolved leaves the map exactly as it was. -/
theorem updateNotionPage_idMap_frame_witness :
    ∃ st' pid,
      updateNotionPage ["a1"] 1 "r1"
        (releaseToPageProperties
          { mbid := "r1", name := "R", thumbnail := TEST_URL,
            artistMbids := ["a1"], type := "Album" })
        "i" (fun _ => none) ⟨0, 1, 2⟩ 3
        ⟨⟨[⟨0, 1, [("mbid", .richText "r1")], "i", false⟩], 1⟩,
          [("a1", 5)], [], []⟩ = some (st', pid) ∧
      st'.idMap = [("a1", 5)] := by
  obtain ⟨out, h⟩ :
      ∃ out, updateNotionPage ["a1"] 1 "r1"
        (releaseToPageProperties
          { mbid := "r1", name := "R", thumbnail := TEST_URL,
            artistMbids := ["a1"], type := "Album" })
        "i" (fun _ => none) ⟨0, 1, 2⟩ 3
        ⟨⟨[⟨0, 1, [("mbid", .richText "r1")], "i", false⟩], 1⟩,
          [("a1", 5)], [], []⟩ = some out := ⟨_, rfl⟩
  have main := updateNotionPage_idMap_frame (by decide) h
  exact ⟨out.1, out.2, h, main.1 (by decide)⟩

/-! ### Materialization of missing related artists (claim C6) -/

/-- The id fetched by a `fetchArtist` trace entry. -/
def fetchedId : StoreCall → Option MBID
  | .fetchArtist m => some m
  | _ => none

theorem artistFromMusicBrainzData_mbid {d : RawArtist} {mt : Int}
    {a : ArtistE} (h : artistFromMusicBrainzData d mt = some a) :
    d.id = some a.mbid := by
  unfold artistFromMusicBrainzData at h
  split at h
  · simp only [Option.some.injEq] at h
    subst h
    assumption
  · exact absurd h (by simp)

theorem fetchLoop_spec {oracle : MBID → Option RawArtist}
    {dbIds : DatabaseIds} {mt : Int}
    (hids : ∀ a d, oracle a = some d → d.id = some a) :
    ∀ (ids : List MBID) (st st' : SyncState),
      fetchLoop oracle dbIds mt ids st = some st' →
      (∃ delta, st'.trace = st.trace ++ delta ∧
        delta.filterMap fetchedId = ids) ∧
      (∀ k, (mapLookup st.idMap k).isSome → (mapLookup st'.idMap k).isSome) ∧
      (∀ e ∈ st.errLog, e ∈ st'.errLog) ∧
      (∀ id ∈ ids, (mapLookup st'.idMap id).isSome ∨
        (oracle id = none ∧ id ∈ st'.errLog))
  | [], st, st', h => by
    simp only [fetchLoop, Option.some.injEq] at h
    subst h
    exact ⟨⟨[], by simp, rfl⟩, fun _ hk => hk, fun _ he => he, by simp⟩
  | id :: rest, st, st', h => by
    simp only [fetchLoop] at h
    split at h
    · rename_i horacle
      obtain ⟨⟨delta, htr, hfil⟩, hmap, herr, hall⟩ :=
        fetchLoop_spec hids rest _ st' h
      refine ⟨⟨.fetchArtist id :: delta, ?_, ?_⟩, hmap, ?_, ?_⟩
      · rw [htr]; simp
      · simp [List.filterMap_cons, fetchedId, hfil]
      · intro e he
        exact herr e (by simp [he])
      · intro x hx
        rcases List.mem_cons.mp hx with rfl | hx'
        · exact Or.inr ⟨horacle, herr x (by simp)⟩
        · exact hall x hx'
    · rename_i d horacle
      split at h
      · exact absurd h (by simp)
      · rename_i artist hnorm
        split at h
        · exact absurd h (by simp)
        · rename_i outp st2 rid hsync
          obtain ⟨⟨delta, htr, hfil⟩, hmap, herr, hall⟩ :=
            fetchLoop_spec hids rest _ st' h
          obtain ⟨props, -, hcase⟩ := syncCore_spec hsync
          have hmbid : artist.mbid = id := by
            have hd := hids id d horacle
            have h2 := artistFromMusicBrainzData_mbid hnorm
            rw [hd] at h2
            exact (Option.some.injEq _ _ ▸ h2).symm
          rcases hcase with ⟨-, -, -, hmap2, htr2, herr2⟩ |
            ⟨page, rest2, -, -, -, hmap2, htr2, herr2⟩ <;>
          · refine ⟨⟨.fetchArtist id :: (st2.trace.drop
                (st.trace.length + 1) ++ delta), ?_, ?_⟩, ?_, ?_, ?_⟩
            · rw [htr, htr2]
              simp
            · rw [htr2]
              simp only [List.filterMap_cons, fetchedId, List.filterMap_append,
                hfil]
              simp [List.drop_left', fetchedId]
            · intro k hk
              apply hmap
              apply mapLookup_mapInsert_isSome
              rw [hmap2]
              first
              | exact mapLookup_mapInsert_isSome _ _ _ _ hk
              | exact hk
            · intro e he
              apply herr
              rw [herr2]
              exact he
            · intro x hx
              rcases List.mem_cons.mp hx with rfl | hx'
              · left
                apply hmap
                rw [← hmbid]
                simp [mapLookup_mapInsert_self]
              · exact hall x hx'

/-- Claim C6.  Under the MusicBrainz contract that a fetched artist
carries the requested id, after `_add_entity_type_missing_related` returns:
every id originally passed is either present in the Identifier Map or its
fetch failed (returned nothing, after logging inside `fetch_artist_data`)
and the id was skipped; the set of ids fetched (materialization attempts)
is exactly the subset of the passed ids not already present in the map,
with no id fetched twice; and that subset is characterized as stated. -/
theorem addEntityTypeMissingRelated_spec
    {entityMbids : List MBID} {oracle : MBID → Option RawArtist}
    {dbIds : DatabaseIds} {mt : Int} {st st' : SyncState}
    (hids : ∀ a d, oracle a = some d → d.id = some a)
    (h : addEntityTypeMissingRelated entityMbids oracle dbIds mt st =
      some st') :
    (∀ id ∈ entityMbids, (mapLookup st'.idMap id).isSome ∨
      (oracle id = none ∧ id ∈ st'.errLog)) ∧
    (st'.trace.drop st.trace.length).filterMap fetchedId =
      entityMbids.dedup.filter (fun id => mapLookup st.idMap id = none) ∧
    (entityMbids.dedup.filter
      (fun id => mapLookup st.idMap id = none)).Nodup ∧
    (∀ id,
      id ∈ entityMbids.dedup.filter (fun id => mapLookup st.idMap id = none) ↔
      (id ∈ entityMbids ∧ mapLookup st.idMap id = none)) := by
  unfold addEntityTypeMissingRelated at h
  obtain ⟨⟨delta, htr, hfil⟩, hmap, herr, hall⟩ :=
    fetchLoop_spec hids _ st st' h
  refine ⟨?_, ?_, ?_, ?_⟩
  · intro id hid
    by_cases hmem : mapLookup st.idMap id = none
    · exact hall id
        (List.mem_filter.mpr ⟨List.mem_dedup.mpr hid, by simp [hmem]⟩)
    · left
      exact hmap id (Option.ne_none_iff_isSome.mp hmem)
  · rw [htr, List.drop_left]
    exact hfil
  · exact List.Nodup.filter _ (List.nodup_dedup _)
  · intro id
    simp [List.mem_filter, List.mem_dedup]

theorem c10Oracle_ids : ∀ a d, c10Oracle a = some d → d.id = some a := by
  intro a d h
  unfold c10Oracle at h
  split at h
  · rename_i ha
    cases h
    rw [ha]
  · exact absurd h (by simp)

/-- Result of materializing `["a1", "x", "a1"]` against `c10Oracle` (where
only `"a1"` exists upstream) from an empty state. -/
def c6Out : SyncState :=
  (addEntityTypeMissingRelated ["a1", "x", "a1"] c10Oracle ⟨0, 1, 2⟩ 3
    ⟨⟨[], 0⟩, [], [], []⟩).getD ⟨⟨[], 0⟩, [], [], []⟩

/-- Witness for claim C6: materializing `["a1", "x", "a1"]` with `"x"`
failing to fetch ends with every passed id either mapped or logged, and
with exactly one fetch per missing id. -/
theorem addEntityTypeMissingRelated_spec_witness :
    addEntityTypeMissingRelated ["a1", "x", "a1"] c10Oracle ⟨0, 1, 2⟩ 3
      ⟨⟨[], 0⟩, [], [], []⟩ = some c6Out ∧
    (∀ id ∈ ["a1", "x", "a1"], (mapLookup c6Out.idMap id).isSome ∨
      (c10Oracle id = none ∧ id ∈ c6Out.errLog)) ∧
    (c6Out.trace.drop
        ((⟨⟨[], 0⟩, [], [], []⟩ : SyncState)).trace.length).filterMap
      fetchedId =
      (["a1", "x", "a1"].dedup.filter fun id =>
        mapLookup ((⟨⟨[], 0⟩, [], [], []⟩ : SyncState)).idMap id = none) := by
  have h : addEntityTypeMissingRelated ["a1", "x", "a1"] c10Oracle ⟨0, 1, 2⟩ 3
      ⟨⟨[], 0⟩, [], [], []⟩ = some c6Out := by decide
  have main := addEntityTypeMissingRelated_spec c10Oracle_ids h
  exact ⟨h, main.1, main.2.1⟩

/-! ## The stale sweep — `move_to_trash_outdated_entity_pages`

```python
if not artist_page_ids:
    return
query_filter = \x7b"or": [\x7b"property": artist_property,
                      "relation": \x7b"contains": artist_page_id\x7d\x7d
                      for artist_page_id in artist_page_ids]\x7d
pages = notion_api.databases.query(database_id=..., filter=query_filter)
for page in pages["results"]:
    if get_page_id(page) not in updated_entity_page_ids:
        notion_api.pages.update(page_id=page_id, archived=True)
has_more, start_cursor = True, None
while has_more:
    pages_response = notion_api.databases.query(..., filter=query_filter,
                                                start_cursor=start_cursor)
    for page in pages_response["results"]:
        if get_page_id(page) not in updated_entity_page_ids:
            notion_api.pages.update(page_id=page_id, archived=True)
    has_more = pages_response.get("has_more", False)
    start_cursor = pages_response.get("next_cursor", None)
```

The store semantics: a relation-filtered query returns the **live**
(non-trashed) pages of the database whose artist relation property contains
one of the given ids, in store order, one chunk of `ps` pages per request
(`ps` is Notion's page size); `has_more`/`next_cursor` describe the
remainder of the result set *at query time*.  Archived pages disappear from
subsequent query results. -/

/-- The relation list stored in a page's property `propName`. -/
def NPage.relationProp (p : NPage) (propName : String) : List PageId :=
  match propsLookup p.props propName with
  | some (.relation ids) => ids
  | _ => []

/-- The live pages matching the sweep's `or`-of-`contains` filter. -/
def Store.liveRelated (s : Store) (db : Nat) (artistProp : String)
    (artistPageIds : List PageId) : List NPage :=
  s.pages.filter fun p =>
    p.db == db && !p.archived &&
      (p.relationProp artistProp).any (fun id => artistPageIds.contains id)

theorem Store.archive_pages_length (s : Store) (pid : PageId) :
    (s.archive pid).pages.length = s.pages.length := by
  simp [Store.archive]

/-- The `for page in pages_response["results"]` body: archive every
returned page whose id is not in `updated_entity_page_ids`. -/
def archiveChunk (updated : List PageId) :
    List NPage → Store → List StoreCall → Store × List StoreCall
  | [], s, tr => (s, tr)
  | p :: rest, s, tr =>
    if p.pageId ∈ updated then
      archiveChunk updated rest s tr
    else
      archiveChunk updated rest (s.archive p.pageId)
        (tr ++ [.archivePage p.pageId])

theorem archiveChunk_pages_length (updated : List PageId) :
    ∀ (chunk : List NPage) (s : Store) (tr : List StoreCall),
      (archiveChunk updated chunk s tr).1.pages.length = s.pages.length
  | [], _, _ => rfl
  | p :: rest, s, tr => by
    by_cases hmem : p.pageId ∈ updated
    · simp only [archiveChunk, if_pos hmem]
      exact archiveChunk_pages_length updated rest s tr
    · simp only [archiveChunk, if_neg hmem]
      rw [archiveChunk_pages_length updated rest _ _,
        Store.archive_pages_length]

/-! #### The pagination model of the sweep

`databases.query` returns at most one page size `ps` of results together
with `has_more` and an opaque `next_cursor`; the code threads the cursor
back verbatim.  A Notion cursor names the first not-yet-returned record of
the result set, so a full drain returns the records that matched the
filter and were live when the drain started, in store order, `ps` at a
time: archiving already-returned records — the only mutation the sweep
performs — touches only records behind the cursor and does not disturb the
remainder.  The drain is therefore embedded as the chunking of the live
result list computed at first-query time, while each
`pages.update(archived=True)` call still runs against the evolving
store. -/

/-- Split a drained result list into page-size chunks: `cap` is the
capacity left in the current chunk and `acc` its records so far
(reversed).  An empty result set still yields one (empty) response, as the
drain always issues at least one query. -/
def chunksOfAux (ps : Nat) : Nat → List NPage → List NPage → List (List NPage)
  | _, acc, [] => [acc.reverse]
  | Nat.succ c, acc, p :: rest => chunksOfAux ps c (p :: acc) rest
  | 0, acc, p :: rest => acc.reverse :: chunksOfAux ps (ps - 1) [p] rest

/-- The successive query responses of a full drain of `l`. -/
def chunksOf (ps : Nat) (l : List NPage) : List (List NPage) :=
  chunksOfAux ps ps [] l

/-- The `while has_more` loop of `move_to_trash_outdated_entity_pages`:
one `databases.query` per pending response chunk, then the `for page in
pages_response["results"]` body archiving the stale records of the
chunk. -/
def sweepChunks (db : Nat) (updated : List PageId) :
    List (List NPage) → Store → List StoreCall → Store × List StoreCall
  | [], s, tr => (s, tr)
  | chunk :: rest, s, tr =>
    let tr1 := tr ++ [StoreCall.queryRelation db (chunk.map (·.pageId))]
    let res := archiveChunk updated chunk s tr1
    sweepChunks db updated rest res.1 res.2

/-- `move_to_trash_outdated_entity_pages(notion_api, database_id,
entity_type, updated_entity_page_ids, artist_page_ids, artist_property)`:
the empty-filter guard, then the stray non-paginated first query with its
archiving pass, then the paginated loop draining a fresh query (cursor
`None`) of the — by now partly archived — store. -/
def moveToTrashOutdatedEntityPages (db : Nat) (updated : List PageId)
    (artistPageIds : List PageId) (artistProp : String) (ps : Nat)
    (s : Store) : Store × List StoreCall :=
  if artistPageIds = [] then
    (s, [])
  else
    let live := s.liveRelated db artistProp artistPageIds
    let chunk := live.take ps
    let tr1 := [StoreCall.queryRelation db (chunk.map (·.pageId))]
    let res := archiveChunk updated chunk s tr1
    sweepChunks db updated
      (chunksOf ps (res.1.liveRelated db artistProp artistPageIds))
      res.1 res.2

/-- Claim C3.  With an empty `artist_page_ids` set the stale sweep is a
no-op: the store is untouched, and the trace is empty — zero store queries
and zero archive calls — whatever the updated set contains. -/
theorem moveToTrashOutdated_empty_artists (db : Nat)
    (updated : List PageId) (artistProp : String) (ps : Nat) (s : Store) :
    moveToTrashOutdatedEntityPages db updated [] artistProp ps s =
      (s, []) := by
  simp [moveToTrashOutdatedEntityPages]

/-- Witness for claim C3: a store holding a matching release page and a
nonempty updated set still sees no call at all when no artist was
refreshed. -/
theorem moveToTrashOutdated_empty_artists_witness :
    moveToTrashOutdatedEntityPages 1 [3] []
      "Artist" 100
      ⟨[⟨3, 1, [("Artist", .relation [7])], "i", false⟩], 4⟩ =
      (⟨[⟨3, 1, [("Artist", .relation [7])], "i", false⟩], 4⟩, []) :=
  moveToTrashOutdated_empty_artists 1 [3] "Artist" 100
    ⟨[⟨3, 1, [("Artist", .relation [7])], "i", false⟩], 4⟩

/-! ### Exactness of the stale sweep (claim C4) -/

/-- Whether the store holds an archived page with this id. -/
def Store.archivedB (s : Store) (pid : PageId) : Bool :=
  s.pages.any fun p => p.pageId == pid && p.archived

/-- All page ids returned by the relation queries of a trace. -/
def returnedIds : List StoreCall → List PageId
  | [] => []
  | .queryRelation _ ids :: rest => ids ++ returnedIds rest
  | _ :: rest => returnedIds rest

theorem returnedIds_append :
    ∀ (tr tr' : List StoreCall),
      returnedIds (tr ++ tr') = returnedIds tr ++ returnedIds tr'
  | [], _ => rfl
  | c :: rest, tr' => by
    cases c <;> simp [returnedIds, returnedIds_append rest tr']

theorem returnedIds_archive (pid : PageId) :
    returnedIds [StoreCall.archivePage pid] = [] := rfl

theorem countArchivesOf_append (pid : PageId) (tr tr' : List StoreCall) :
    countArchivesOf pid (tr ++ tr') =
      countArchivesOf pid tr + countArchivesOf pid tr' := by
  simp [countArchivesOf, List.filter_append]

theorem countArchivesOf_query (pid : PageId) (db : Nat)
    (ids : List PageId) :
    countArchivesOf pid [StoreCall.queryRelation db ids] = 0 := rfl

theorem countArchivesOf_single (pid q : PageId) :
    countArchivesOf pid [StoreCall.archivePage q] =
      if q = pid then 1 else 0 := by
  by_cases h : q = pid
  · simp [countArchivesOf, List.filter, h]
  · have hf : (q == pid) = false := beq_eq_false_iff_ne.mpr h
    simp [countArchivesOf, List.filter, hf, h]

theorem Store.archive_pageIds (s : Store) (pid : PageId) :
    (s.archive pid).pages.map (·.pageId) = s.pages.map (·.pageId) := by
  simp only [Store.archive, List.map_map]
  apply List.map_congr_left
  intro p _
  by_cases h : p.pageId = pid <;> simp [h]

theorem archiveFun_pageId (pid : PageId) (p : NPage) :
    (if p.pageId = pid then { p with archived := true } else p).pageId =
      p.pageId := by
  split <;> rfl

theorem archiveFun_archived (pid : PageId) (p : NPage) :
    (if p.pageId = pid then { p with archived := true } else p).archived =
      (p.archived || p.pageId == pid) := by
  by_cases h : p.pageId = pid <;> simp [h]

/-- Archiving a page that exists in the store makes exactly its id
archived, leaving every other id's archived status unchanged. -/
theorem Store.archivedB_archive (s : Store) {pid : PageId}
    (hmem : pid ∈ s.pages.map (·.pageId)) (q : PageId) :
    (s.archive pid).archivedB q = (s.archivedB q || q == pid) := by
  simp only [Store.archivedB, Store.archive, List.any_map, Function.comp_def,
    archiveFun_pageId, archiveFun_archived]
  by_cases hq : q = pid
  · subst hq
    simp only [beq_self_eq_true, Bool.or_true]
    rw [List.any_eq_true]
    obtain ⟨p, hp, hpq⟩ := List.mem_map.mp hmem
    exact ⟨p, hp, by simp [hpq]⟩
  · have hqpid : (q == pid) = false := by simp [hq]
    rw [hqpid, Bool.or_false, Bool.eq_iff_iff]
    simp only [List.any_eq_true, Bool.and_eq_true, beq_iff_eq,
      Bool.or_eq_true]
    constructor
    · rintro ⟨p, hp, h1, h2⟩
      rcases h2 with h2 | h2
      · exact ⟨p, hp, h1, h2⟩
      · exact absurd (h1.symm.trans h2) hq
    · rintro ⟨p, hp, h1, h2⟩
      exact ⟨p, hp, h1, Or.inl h2⟩

theorem Store.archivedB_archive_mono (s : Store) (pid q : PageId)
    (h : s.archivedB q = true) : (s.archive pid).archivedB q = true := by
  simp only [Store.archivedB, Store.archive, List.any_map, Function.comp_def,
    archiveFun_pageId, archiveFun_archived, List.any_eq_true,
    Bool.and_eq_true, Bool.or_eq_true] at h ⊢
  obtain ⟨p, hp, h1, h2⟩ := h
  exact ⟨p, hp, h1, Or.inl h2⟩

/-- The archive calls issued by one chunk-processing pass. -/
def archCalls (updated : List PageId) : List NPage → List StoreCall
  | [] => []
  | p :: rest =>
    if p.pageId ∈ updated then archCalls updated rest
    else StoreCall.archivePage p.pageId :: archCalls updated rest

theorem archiveChunk_trace (updated : List PageId) :
    ∀ (chunk : List NPage) (s : Store) (tr : List StoreCall),
      (archiveChunk updated chunk s tr).2 = tr ++ archCalls updated chunk
  | [], _, _ => by simp [archiveChunk, archCalls]
  | p :: rest, s, tr => by
    by_cases hmem : p.pageId ∈ updated
    · simp only [archiveChunk, archCalls, if_pos hmem]
      exact archiveChunk_trace updated rest s tr
    · simp only [archiveChunk, archCalls, if_neg hmem]
      rw [archiveChunk_trace updated rest _ _, List.append_assoc]
      rfl

theorem archCalls_returnedIds (updated : List PageId) :
    ∀ chunk : List NPage, returnedIds (archCalls updated chunk) = []
  | [] => rfl
  | p :: rest => by
    by_cases hmem : p.pageId ∈ updated
    · simp only [archCalls, if_pos hmem]
      exact archCalls_returnedIds updated rest
    · simp only [archCalls, if_neg hmem, returnedIds]
      exact archCalls_returnedIds updated rest

theorem countArchivesOf_archCalls (updated : List PageId) (pid : PageId) :
    ∀ chunk : List NPage, ((chunk.map (·.pageId)).Nodup) →
      countArchivesOf pid (archCalls updated chunk) =
        if pid ∈ chunk.map (·.pageId) ∧ pid ∉ updated then 1 else 0
  | [], _ => by simp [archCalls, countArchivesOf]
  | p :: rest, hnd => by
    have hnd' : ((rest.map (·.pageId)).Nodup) := by
      simp only [List.map_cons, List.nodup_cons] at hnd
      exact hnd.2
    have hnotin : p.pageId ∉ rest.map (·.pageId) := by
      simp only [List.map_cons, List.nodup_cons] at hnd
      exact hnd.1
    by_cases hmem : p.pageId ∈ updated
    · rw [archCalls, if_pos hmem,
        countArchivesOf_archCalls updated pid rest hnd']
      by_cases hpid : pid = p.pageId
      · subst hpid
        simp [hmem]
      · simp [List.mem_cons, hpid]
    · rw [archCalls, if_neg hmem]
      have hsplit : StoreCall.archivePage p.pageId :: archCalls updated rest =
          [StoreCall.archivePage p.pageId] ++ archCalls updated rest := rfl
      rw [hsplit, countArchivesOf_append, countArchivesOf_single,
        countArchivesOf_archCalls updated pid rest hnd']
      by_cases hpid : pid = p.pageId
      · subst hpid
        simp [hnotin, hmem]
      · simp [Ne.symm hpid, hpid, List.mem_cons]

theorem archiveChunk_pageIds (updated : List PageId) :
    ∀ (chunk : List NPage) (s : Store) (tr : List StoreCall),
      (archiveChunk updated chunk s tr).1.pages.map (·.pageId) =
        s.pages.map (·.pageId)
  | [], _, _ => rfl
  | p :: rest, s, tr => by
    by_cases hmem : p.pageId ∈ updated
    · simp only [archiveChunk, if_pos hmem]
      exact archiveChunk_pageIds updated rest s tr
    · simp only [archiveChunk, if_neg hmem]
      rw [archiveChunk_pageIds updated rest _ _, Store.archive_pageIds]

theorem archiveChunk_archivedB (updated : List PageId) :
    ∀ (chunk : List NPage) (s : Store) (tr : List StoreCall) (q : PageId),
      (∀ p ∈ chunk, p.pageId ∈ s.pages.map (·.pageId)) →
      (archiveChunk updated chunk s tr).1.archivedB q =
        (s.archivedB q ||
          chunk.any fun p => p.pageId == q && !(decide (p.pageId ∈ updated)))
  | [], s, tr, q, _ => by simp [archiveChunk]
  | p :: rest, s, tr, q, hmem => by
    have hp : p.pageId ∈ s.pages.map (·.pageId) :=
      hmem p (List.mem_cons_self p rest)
    have hrest : ∀ r ∈ rest, r.pageId ∈ s.pages.map (·.pageId) :=
      fun r hr => hmem r (List.mem_cons_of_mem p hr)
    by_cases hu : p.pageId ∈ updated
    · simp only [archiveChunk, if_pos hu]
      rw [archiveChunk_archivedB updated rest s tr q hrest]
      simp [hu]
    · simp only [archiveChunk, if_neg hu]
      have hrest' : ∀ r ∈ rest,
          r.pageId ∈ (s.archive p.pageId).pages.map (·.pageId) := by
        intro r hr
        rw [Store.archive_pageIds]
        exact hrest r hr
      rw [archiveChunk_archivedB updated rest _ _ q hrest',
        Store.archivedB_archive s hp q]
      by_cases hq : q = p.pageId
      · subst hq
        simp [hu]
      · have h1 : (q == p.pageId) = false := by simp [hq]
        have h2 : (p.pageId == q) = false := by simp [Ne.symm hq]
        simp [h1, h2, Bool.or_assoc]

theorem archiveChunk_mem_of_untouched (updated : List PageId) :
    ∀ (chunk : List NPage) (s : Store) (tr : List StoreCall) (p : NPage),
      p ∈ s.pages → (∀ q ∈ chunk, q.pageId ≠ p.pageId) →
      p ∈ (archiveChunk updated chunk s tr).1.pages
  | [], s, tr, p, hp, _ => by
    simp only [archiveChunk]
    exact hp
  | q :: rest, s, tr, p, hp, hne => by
    have hq : q.pageId ≠ p.pageId := hne q (List.mem_cons_self q rest)
    have hrest : ∀ r ∈ rest, r.pageId ≠ p.pageId :=
      fun r hr => hne r (List.mem_cons_of_mem q hr)
    by_cases hu : q.pageId ∈ updated
    · simp only [archiveChunk, if_pos hu]
      exact archiveChunk_mem_of_untouched updated rest s tr p hp hrest
    · simp only [archiveChunk, if_neg hu]
      refine archiveChunk_mem_of_untouched updated rest _ _ p ?_ hrest
      simp only [Store.archive]
      refine List.mem_map.mpr ⟨p, hp, ?_⟩
      exact if_neg fun h => hq h.symm

/-- In a store with pairwise-distinct page ids, a present, non-archived
page witnesses that its id is not archived. -/
theorem archivedB_eq_false_of_live (s : Store)
    (hsn : ((s.pages.map (·.pageId)).Nodup)) (p : NPage) (hp : p ∈ s.pages)
    (ha : p.archived = false) : s.archivedB p.pageId = false := by
  rw [Bool.eq_false_iff]
  intro h
  rw [Store.archivedB, List.any_eq_true] at h
  obtain ⟨p', hp', hb⟩ := h
  rw [Bool.and_eq_true, beq_iff_eq] at hb
  obtain ⟨heq, harch⟩ := hb
  have hpp : p' = p := List.inj_on_of_nodup_map hsn hp' hp heq
  rw [hpp, ha] at harch
  exact Bool.false_ne_true harch

theorem liveRelated_mem_pages {s : Store} {db : Nat} {artistProp : String}
    {artistPageIds : List PageId} {p : NPage}
    (h : p ∈ s.liveRelated db artistProp artistPageIds) : p ∈ s.pages :=
  (List.mem_filter.mp h).1

theorem liveRelated_not_archived {s : Store} {db : Nat}
    {artistProp : String} {artistPageIds : List PageId} {p : NPage}
    (h : p ∈ s.liveRelated db artistProp artistPageIds) :
    p.archived = false := by
  have hpred := (List.mem_filter.mp h).2
  simp only [Bool.and_eq_true, Bool.not_eq_true'] at hpred
  exact hpred.1.2

/-- The sweep's filter reads only the page itself: a page matching in one
store matches in any store holding it. -/
theorem mem_liveRelated_of_mem_of_mem {s s' : Store} {db : Nat}
    {artistProp : String} {artistPageIds : List PageId} {p : NPage}
    (h : p ∈ s.liveRelated db artistProp artistPageIds)
    (hp : p ∈ s'.pages) : p ∈ s'.liveRelated db artistProp artistPageIds := by
  rw [Store.liveRelated, List.mem_filter]
  exact ⟨hp, (List.mem_filter.mp h).2⟩

theorem liveRelated_pageIds_nodup (s : Store) (db : Nat)
    (artistProp : String) (artistPageIds : List PageId)
    (hsn : ((s.pages.map (·.pageId)).Nodup)) :
    (((s.liveRelated db artistProp artistPageIds).map (·.pageId)).Nodup) :=
  ((List.filter_sublist s.pages).map _).nodup hsn

theorem chunksOfAux_flatten (ps : Nat) :
    ∀ (l : List NPage) (c : Nat) (acc : List NPage),
      (chunksOfAux ps c acc l).flatten = acc.reverse ++ l
  | [], c, acc => by cases c <;> simp [chunksOfAux]
  | p :: rest, 0, acc => by
    rw [chunksOfAux, List.flatten_cons,
      chunksOfAux_flatten ps rest (ps - 1) [p]]
    simp
  | p :: rest, Nat.succ c, acc => by
    rw [chunksOfAux, chunksOfAux_flatten ps rest c (p :: acc)]
    simp

theorem chunksOf_flatten (ps : Nat) (l : List NPage) :
    (chunksOf ps l).flatten = l := by
  rw [chunksOf, chunksOfAux_flatten]
  rfl

theorem sweepChunks_trace_extend (db : Nat) (updated : List PageId) :
    ∀ (chunks : List (List NPage)) (s : Store) (tr : List StoreCall),
      ∃ d, (sweepChunks db updated chunks s tr).2 = tr ++ d := by
  intro chunks
  induction chunks with
  | nil =>
    intro s tr
    exact ⟨[], by simp [sweepChunks]⟩
  | cons chunk rest ih =>
    intro s tr
    simp only [sweepChunks]
    obtain ⟨d, hd⟩ := ih
      (archiveChunk updated chunk s
        (tr ++ [StoreCall.queryRelation db (chunk.map (·.pageId))])).1
      (archiveChunk updated chunk s
        (tr ++ [StoreCall.queryRelation db (chunk.map (·.pageId))])).2
    refine ⟨[StoreCall.queryRelation db (chunk.map (·.pageId))] ++
      archCalls updated chunk ++ d, ?_⟩
    rw [hd, archiveChunk_trace]
    simp

theorem archiveChunk_returnedIds (db : Nat) (updated : List PageId)
    (chunk : List NPage) (s : Store) (tr : List StoreCall) :
    returnedIds (archiveChunk updated chunk s
        (tr ++ [StoreCall.queryRelation db (chunk.map (·.pageId))])).2 =
      returnedIds tr ++ chunk.map (·.pageId) := by
  rw [archiveChunk_trace, returnedIds_append, returnedIds_append,
    archCalls_returnedIds]
  simp [returnedIds]

/-- One query-and-archive pass keeps archive counts the exact indicator of
returned-stale ids. -/
theorem chunkStep_counts (db : Nat) (updated : List PageId)
    (chunk : List NPage) (s : Store) (tr : List StoreCall)
    (hcn : ((chunk.map (·.pageId)).Nodup))
    (hsn : ((s.pages.map (·.pageId)).Nodup))
    (hlive : ∀ p ∈ chunk, p ∈ s.pages ∧ p.archived = false)
    (hD : ∀ pid, countArchivesOf pid tr =
      if pid ∈ returnedIds tr ∧ pid ∉ updated then 1 else 0)
    (hE : ∀ pid, pid ∈ returnedIds tr → pid ∉ updated →
      s.archivedB pid = true) :
    ∀ pid, countArchivesOf pid (archiveChunk updated chunk s
        (tr ++ [StoreCall.queryRelation db (chunk.map (·.pageId))])).2 =
      if pid ∈ returnedIds (archiveChunk updated chunk s
          (tr ++ [StoreCall.queryRelation db (chunk.map (·.pageId))])).2 ∧
          pid ∉ updated then 1 else 0 := by
  intro pid
  rw [archiveChunk_returnedIds db updated chunk s tr, archiveChunk_trace,
    countArchivesOf_append, countArchivesOf_append, countArchivesOf_query,
    countArchivesOf_archCalls updated pid chunk hcn, hD pid]
  by_cases hup : pid ∈ updated
  · simp [hup]
  · by_cases h1 : pid ∈ returnedIds tr
    · have harch : s.archivedB pid = true := hE pid h1 hup
      have h2 : pid ∉ chunk.map (·.pageId) := by
        intro hmem
        obtain ⟨p, hp, hpid⟩ := List.mem_map.mp hmem
        obtain ⟨hps, hpa⟩ := hlive p hp
        have hfalse := archivedB_eq_false_of_live s hsn p hps hpa
        rw [hpid, harch] at hfalse
        simp at hfalse
      simp [h1, h2, hup, List.mem_append]
    · simp [h1, hup, List.mem_append]

/-- One query-and-archive pass archives every returned-stale id. -/
theorem chunkStep_archived (db : Nat) (updated : List PageId)
    (chunk : List NPage) (s : Store) (tr : List StoreCall)
    (hlive : ∀ p ∈ chunk, p ∈ s.pages ∧ p.archived = false)
    (hE : ∀ pid, pid ∈ returnedIds tr → pid ∉ updated →
      s.archivedB pid = true) :
    ∀ pid, pid ∈ returnedIds (archiveChunk updated chunk s
        (tr ++ [StoreCall.queryRelation db (chunk.map (·.pageId))])).2 →
      pid ∉ updated →
      (archiveChunk updated chunk s
        (tr ++ [StoreCall.queryRelation db (chunk.map (·.pageId))])).1.archivedB
          pid = true := by
  intro pid hmem hup
  rw [archiveChunk_returnedIds db updated chunk s tr] at hmem
  have hside : ∀ p ∈ chunk, p.pageId ∈ s.pages.map (·.pageId) :=
    fun p hp => List.mem_map_of_mem _ (hlive p hp).1
  rw [archiveChunk_archivedB updated chunk s _ pid hside]
  rcases List.mem_append.mp hmem with h1 | h2
  · rw [hE pid h1 hup, Bool.true_or]
  · obtain ⟨p, hp, hpid⟩ := List.mem_map.mp h2
    have hany : (chunk.any fun q =>
        q.pageId == pid && !(decide (q.pageId ∈ updated))) = true := by
      rw [List.any_eq_true]
      refine ⟨p, hp, ?_⟩
      rw [hpid]
      simp [hup]
    rw [hany, Bool.or_true]

/-- The sweep invariant through the paginated drain: archive counts stay
the exact indicator of returned-stale ids, and every drained record is
returned. -/
theorem sweepChunks_spec (db : Nat) (updated : List PageId) :
    ∀ (chunks : List (List NPage)) (s : Store) (tr : List StoreCall),
      ((chunks.flatten.map (·.pageId)).Nodup) →
      ((s.pages.map (·.pageId)).Nodup) →
      (∀ p ∈ chunks.flatten, p ∈ s.pages ∧ p.archived = false) →
      (∀ pid, countArchivesOf pid tr =
        if pid ∈ returnedIds tr ∧ pid ∉ updated then 1 else 0) →
      (∀ pid, pid ∈ returnedIds tr → pid ∉ updated →
        s.archivedB pid = true) →
      (∀ pid, countArchivesOf pid (sweepChunks db updated chunks s tr).2 =
        if pid ∈ returnedIds (sweepChunks db updated chunks s tr).2 ∧
          pid ∉ updated then 1 else 0) ∧
      (∀ p ∈ chunks.flatten,
        p.pageId ∈ returnedIds (sweepChunks db updated chunks s tr).2) := by
  intro chunks
  induction chunks with
  | nil =>
    intro s tr _ _ _ hD _
    refine ⟨fun pid => ?_, fun p hp => absurd hp (by simp)⟩
    simp only [sweepChunks]
    exact hD pid
  | cons chunk rest ih =>
    intro s tr hnd hsn hlive hD hE
    rw [List.flatten_cons, List.map_append, List.nodup_append] at hnd
    obtain ⟨hcn, hndr, hdisj⟩ := hnd
    have hlivec : ∀ p ∈ chunk, p ∈ s.pages ∧ p.archived = false := by
      intro p hp
      exact hlive p (by rw [List.flatten_cons]; exact List.mem_append_left _ hp)
    have hret := archiveChunk_returnedIds db updated chunk s tr
    have hcounts := chunkStep_counts db updated chunk s tr hcn hsn hlivec hD hE
    have harch := chunkStep_archived db updated chunk s tr hlivec hE
    have hsn' : (((archiveChunk updated chunk s
        (tr ++ [StoreCall.queryRelation db
          (chunk.map (·.pageId))])).1.pages.map (·.pageId)).Nodup) := by
      rw [archiveChunk_pageIds]
      exact hsn
    have hliver : ∀ p ∈ rest.flatten,
        p ∈ (archiveChunk updated chunk s
          (tr ++ [StoreCall.queryRelation db
            (chunk.map (·.pageId))])).1.pages ∧ p.archived = false := by
      intro p hp
      have hps := hlive p
        (by rw [List.flatten_cons]; exact List.mem_append_right _ hp)
      refine ⟨archiveChunk_mem_of_untouched updated chunk s _ p hps.1 ?_,
        hps.2⟩
      intro q hq heq
      exact hdisj (List.mem_map_of_mem _ hq)
        (heq ▸ List.mem_map_of_mem (·.pageId) hp)
    obtain ⟨ihD, ihC⟩ := ih
      (archiveChunk updated chunk s
        (tr ++ [StoreCall.queryRelation db (chunk.map (·.pageId))])).1
      (archiveChunk updated chunk s
        (tr ++ [StoreCall.queryRelation db (chunk.map (·.pageId))])).2
      hndr hsn' hliver hcounts harch
    constructor
    · intro pid
      simp only [sweepChunks]
      exact ihD pid
    · intro p hp
      rw [List.flatten_cons] at hp
      rcases List.mem_append.mp hp with h | h
      · obtain ⟨d, hd⟩ := sweepChunks_trace_extend db updated rest
          (archiveChunk updated chunk s
            (tr ++ [StoreCall.queryRelation db (chunk.map (·.pageId))])).1
          (archiveChunk updated chunk s
            (tr ++ [StoreCall.queryRelation db (chunk.map (·.pageId))])).2
        simp only [sweepChunks]
        rw [hd, returnedIds_append]
        refine List.mem_append_left _ ?_
        rw [hret]
        exact List.mem_append_right _ (List.mem_map_of_mem _ h)
      · simp only [sweepChunks]
        exact ihC p h

/-- The paginated phase of the sweep, for any store `s1` and prior trace
`tr1` satisfying the invariant: it drains the live result set of `s1`,
with counts staying exact and every drained page returned. -/
theorem sweepPhase_spec (db : Nat) (updated : List PageId)
    (artistProp : String) (artistPageIds : List PageId) (ps : Nat)
    (s1 : Store) (tr1 : List StoreCall)
    (hsn1 : ((s1.pages.map (·.pageId)).Nodup))
    (hD1 : ∀ pid, countArchivesOf pid tr1 =
      if pid ∈ returnedIds tr1 ∧ pid ∉ updated then 1 else 0)
    (hE1 : ∀ pid, pid ∈ returnedIds tr1 → pid ∉ updated →
      s1.archivedB pid = true) :
    (∀ pid, countArchivesOf pid (sweepChunks db updated
        (chunksOf ps (s1.liveRelated db artistProp artistPageIds))
        s1 tr1).2 =
      if pid ∈ returnedIds (sweepChunks db updated
          (chunksOf ps (s1.liveRelated db artistProp artistPageIds))
          s1 tr1).2 ∧ pid ∉ updated then 1 else 0) ∧
    (∀ p ∈ s1.liveRelated db artistProp artistPageIds,
      p.pageId ∈ returnedIds (sweepChunks db updated
        (chunksOf ps (s1.liveRelated db artistProp artistPageIds))
        s1 tr1).2) := by
  have hq_flat := chunksOf_flatten ps
    (s1.liveRelated db artistProp artistPageIds)
  obtain ⟨hDf, hCf⟩ := sweepChunks_spec db updated
    (chunksOf ps (s1.liveRelated db artistProp artistPageIds)) s1 tr1
    (by rw [hq_flat]
        exact liveRelated_pageIds_nodup _ _ _ _ hsn1)
    hsn1
    (by rw [hq_flat]
        intro p hp
        exact ⟨liveRelated_mem_pages hp, liveRelated_not_archived hp⟩)
    hD1 hE1
  exact ⟨hDf, fun p hp => hCf p (by rw [hq_flat]; exact hp)⟩

/-- The sweep specification for the guard-passing branch, phrased over the
unfolded body (`L` is the live result set of the stray first query). -/
theorem moveToTrashOutdated_core (db : Nat)
    (updated artistPageIds : List PageId) (artistProp : String) (ps : Nat)
    (s0 : Store) (L : List NPage)
    (hL : L = s0.liveRelated db artistProp artistPageIds)
    (hnd : ((s0.pages.map (·.pageId)).Nodup)) :
    (∀ pid, countArchivesOf pid
        (sweepChunks db updated
          (chunksOf ps ((archiveChunk updated (L.take ps) s0
            [StoreCall.queryRelation db
              ((L.take ps).map (·.pageId))]).1.liveRelated db artistProp
                artistPageIds))
          (archiveChunk updated (L.take ps) s0
            [StoreCall.queryRelation db ((L.take ps).map (·.pageId))]).1
          (archiveChunk updated (L.take ps) s0
            [StoreCall.queryRelation db ((L.take ps).map (·.pageId))]).2).2 =
      if pid ∈ returnedIds (sweepChunks db updated
          (chunksOf ps ((archiveChunk updated (L.take ps) s0
            [StoreCall.queryRelation db
              ((L.take ps).map (·.pageId))]).1.liveRelated db artistProp
                artistPageIds))
          (archiveChunk updated (L.take ps) s0
            [StoreCall.queryRelation db ((L.take ps).map (·.pageId))]).1
          (archiveChunk updated (L.take ps) s0
            [StoreCall.queryRelation db
              ((L.take ps).map (·.pageId))]).2).2 ∧
          pid ∉ updated then 1 else 0) ∧
    (∀ p ∈ s0.liveRelated db artistProp artistPageIds,
      p.pageId ∈ returnedIds (sweepChunks db updated
          (chunksOf ps ((archiveChunk updated (L.take ps) s0
            [StoreCall.queryRelation db
              ((L.take ps).map (·.pageId))]).1.liveRelated db artistProp
                artistPageIds))
          (archiveChunk updated (L.take ps) s0
            [StoreCall.queryRelation db ((L.take ps).map (·.pageId))]).1
          (archiveChunk updated (L.take ps) s0
            [StoreCall.queryRelation db
              ((L.take ps).map (·.pageId))]).2).2) := by
  have hln : ((L.map (·.pageId)).Nodup) := by
    rw [hL]
    exact liveRelated_pageIds_nodup s0 db artistProp artistPageIds hnd
  have hcn : (((L.take ps).map (·.pageId)).Nodup) :=
    ((List.take_sublist ps L).map _).nodup hln
  have hlivec : ∀ p ∈ L.take ps, p ∈ s0.pages ∧ p.archived = false := by
    intro p hp
    have hpl := List.mem_of_mem_take hp
    rw [hL] at hpl
    exact ⟨liveRelated_mem_pages hpl, liveRelated_not_archived hpl⟩
  have hD0 : ∀ pid, countArchivesOf pid ([] : List StoreCall) =
      if pid ∈ returnedIds [] ∧ pid ∉ updated then 1 else 0 := by
    intro pid
    simp [countArchivesOf, returnedIds]
  have hE0 : ∀ pid, pid ∈ returnedIds ([] : List StoreCall) →
      pid ∉ updated → s0.archivedB pid = true := by
    intro pid h
    exact absurd h (by simp [returnedIds])
  have hret0 := archiveChunk_returnedIds db updated (L.take ps) s0 []
  have hcounts0 := chunkStep_counts db updated (L.take ps) s0 [] hcn hnd
    hlivec hD0 hE0
  have harch0 := chunkStep_archived db updated (L.take ps) s0 [] hlivec hE0
  simp only [List.nil_append, returnedIds] at hret0 hcounts0 harch0
  have hsn1 : (((archiveChunk updated (L.take ps) s0
      [StoreCall.queryRelation db
        ((L.take ps).map (·.pageId))]).1.pages.map (·.pageId)).Nodup) := by
    rw [archiveChunk_pageIds]
    exact hnd
  obtain ⟨hDf, hCf⟩ := sweepPhase_spec db updated artistProp artistPageIds
    ps _ _ hsn1 hcounts0 harch0
  refine ⟨hDf, ?_⟩
  intro p hp
  have hp2 : p ∈ L.take ps ++ L.drop ps := by
    rw [List.take_append_drop, hL]
    exact hp
  rcases List.mem_append.mp hp2 with h | h
  · obtain ⟨d, hd⟩ := sweepChunks_trace_extend db updated
      (chunksOf ps ((archiveChunk updated (L.take ps) s0
        [StoreCall.queryRelation db
          ((L.take ps).map (·.pageId))]).1.liveRelated db artistProp
            artistPageIds))
      (archiveChunk updated (L.take ps) s0
        [StoreCall.queryRelation db ((L.take ps).map (·.pageId))]).1
      (archiveChunk updated (L.take ps) s0
        [StoreCall.queryRelation db ((L.take ps).map (·.pageId))]).2
    rw [hd, returnedIds_append]
    refine List.mem_append_left _ ?_
    rw [hret0]
    exact List.mem_map_of_mem _ h
  · have hnd2 : (((L.take ps).map (·.pageId)) ++
        ((L.drop ps).map (·.pageId))).Nodup := by
      rw [← List.map_append, List.take_append_drop]
      exact hln
    obtain ⟨_, _, hdisj⟩ := List.nodup_append.mp hnd2
    have hum : ∀ q ∈ L.take ps, q.pageId ≠ p.pageId := by
      intro q hq heq
      exact hdisj (List.mem_map_of_mem _ hq)
        (heq ▸ List.mem_map_of_mem (·.pageId) h)
    have hp1 : p ∈ (archiveChunk updated (L.take ps) s0
        [StoreCall.queryRelation db ((L.take ps).map (·.pageId))]).1.pages :=
      archiveChunk_mem_of_untouched updated (L.take ps) s0 _ p
        (liveRelated_mem_pages hp) hum
    exact hCf p (mem_liveRelated_of_mem_of_mem hp hp1)

/-- Claim C4.  With a non-empty `artist_page_ids`, the stale sweep issues
exactly one archive call for every returned record whose id is not in
`updated_entity_page_ids` and none for any other id, and it traverses the
whole result set: every live page matching the artist-relation filter when
the sweep starts is returned by one of its queries (so every stale record
of the result set is archived exactly once). -/
theorem moveToTrashOutdated_spec (db : Nat)
    (updated artistPageIds : List PageId) (artistProp : String) (ps : Nat)
    (s0 : Store) (hne : artistPageIds ≠ [])
    (hnd : ((s0.pages.map (·.pageId)).Nodup)) :
    (∀ pid, countArchivesOf pid
        (moveToTrashOutdatedEntityPages db updated artistPageIds artistProp
          ps s0).2 =
      if pid ∈ returnedIds (moveToTrashOutdatedEntityPages db updated
          artistPageIds artistProp ps s0).2 ∧ pid ∉ updated
        then 1 else 0) ∧
    (∀ p ∈ s0.liveRelated db artistProp artistPageIds,
      p.pageId ∈ returnedIds (moveToTrashOutdatedEntityPages db updated
        artistPageIds artistProp ps s0).2) := by
  have h := moveToTrashOutdated_core db updated artistPageIds artistProp ps
    s0 _ rfl hnd
  unfold moveToTrashOutdatedEntityPages
  rw [if_neg hne]
  exact h

/-- One artist (page id 10) with three prior release pages 1, 2 and 3 in
the release database, of which 1 and 2 were updated this run. -/
def c4Store : Store :=
  ⟨[⟨1, 1, [("Artist", .relation [10])], "i", false⟩,
    ⟨2, 1, [("Artist", .relation [10])], "i", false⟩,
    ⟨3, 1, [("Artist", .relation [10])], "i", false⟩], 4⟩

/-- Witness for claim C4: on `c4Store` the sweep makes exactly one archive
call overall, namely one for release page 3, the release absent from the
updated set. -/
theorem moveToTrashOutdated_spec_witness :
    countArchives (moveToTrashOutdatedEntityPages 1 [1, 2] [10] "Artist"
      100 c4Store).2 = 1 ∧
    countArchivesOf 3 (moveToTrashOutdatedEntityPages 1 [1, 2] [10]
      "Artist" 100 c4Store).2 = 1 ∧
    ((∀ pid, countArchivesOf pid (moveToTrashOutdatedEntityPages 1 [1, 2]
        [10] "Artist" 100 c4Store).2 =
      if pid ∈ returnedIds (moveToTrashOutdatedEntityPages 1 [1, 2] [10]
          "Artist" 100 c4Store).2 ∧ pid ∉ [1, 2] then 1 else 0) ∧
     (∀ p ∈ c4Store.liveRelated 1 "Artist" [10],
       p.pageId ∈ returnedIds (moveToTrashOutdatedEntityPages 1 [1, 2]
         [10] "Artist" 100 c4Store).2)) :=
  ⟨by decide, by decide,
    moveToTrashOutdated_spec 1 [1, 2] [10] "Artist" 100 c4Store
      (by decide) (by decide)⟩

end MB2N
